import Mathlib

/-!
# A verification model of `beep` (src/beep-main.c)

This file gives a shallow embedding of the observable behaviour of the
`beep` utility's single source file `beep-main.c` as a trace semantics,
and proves properties of the playback engine, the parser, and the main
control flow.

Modelling decisions (each mirrors a specific place in the C source):

* The driver operations (`beep_drivers_register`, `beep_drivers_detect`,
  `beep_drivers_begin_tone`, `beep_drivers_end_tone`, `beep_drivers_fini`),
  the syscalls (`signal`, `nanosleep`, `isatty`), and the stdio calls are
  modelled as events in a trace.  The two calls
  `signal(SIGINT, handle_signal); signal(SIGTERM, handle_signal)` are one
  `sigInstall` event, and the two `signal(..., SIG_DFL)` calls are one
  `sigRestore` event.
* Whether a given `nanosleep` call is interrupted by a signal (returns -1
  with errno EINTR) is decided by an environment oracle `intr : Nat → Bool`
  indexed by the global sequence number of the sleep.
* `sleep_ms` is called from two distinct call sites in `play_beep`
  (tone-length sleep at line 322, inter-repetition delay sleep at line
  325); the `SleepTag` argument is ghost instrumentation recording the
  call site, so the two kinds of sleep can be told apart in a trace.
* Machine `unsigned int` values are modelled as `Nat`; the only place the
  source relies on machine width is the mask `parms.freq & 0xffff`, kept
  literally as `&&& 65535`.
* The `while (parms)` loop of `main` is `chain_loop`, reading stdin as a
  `List Char`; `fgets(sin, 4096, stdin)` is `takeLine 4095` (at most 4095
  characters, stopping after a newline), and the C-string view of a chunk
  (reading stops at the first NUL byte, as in `fputs` and the `*ptr`
  loop) is `cstr`.
* `log_verbose`/`log_warning` calls and `malloc` failure are not modelled;
  they do not affect any property stated here.
-/

namespace Beep

/-- `stdin_beep_E` from beep-main.c lines 71-76. -/
inductive stdin_beep_E
  | none
  | line
  | char
deriving DecidableEq, Repr

/-- `struct _beep_parms_T` from beep-main.c lines 88-104 (the `next`
pointer of the C linked list is represented by playing a `List` of these
records, see `chain_loop`).  `end_delay_E` is represented as `Bool`. -/
structure beep_parms_T where
  freq : Nat
  length : Nat
  reps : Nat
  delay : Nat
  end_delay : Bool
  stdin_beep : stdin_beep_E
deriving DecidableEq, Repr

/-- Ghost tag for the two `sleep_ms` call sites in `play_beep`:
line 322 sleeps for the tone length, line 325 for the inter-repetition
delay. -/
inductive SleepTag
  | tone
  | delay
deriving DecidableEq, Repr

/-- Observable events of a run of beep-main.c. -/
inductive Ev
  | register                 -- beep_drivers_register(...)
  | openDevice               -- successful beep_drivers_detect(...)
  | startTone (freq : Nat)   -- beep_drivers_begin_tone(driver, freq)
  | stopTone                 -- beep_drivers_end_tone(driver)
  | close                    -- beep_drivers_fini(driver)
  | sigInstall               -- signal(SIGINT/SIGTERM, handle_signal)
  | sigRestore               -- signal(SIGINT/SIGTERM, SIG_DFL)
  | sleep (tag : SleepTag) (ms : Nat)  -- nanosleep(...)
  | playCall                 -- entry into play_beep
  | free                     -- free(parms)
  | setvbufIn                -- setvbuf(stdin, NULL, _IONBF, 0)
  | setvbufOut               -- setvbuf(stdout, NULL, _IONBF, 0)
  | echo (s : List Char)     -- fputs/putchar of input to stdout
  | flush                    -- fflush(stdout)
  | bell                     -- fputc of the BEL character to stdout
  | errMsg (s : String)      -- log_error(...)
  | usage                    -- print_usage()
  | versionOut               -- fputs(version_message, stdout)
  | exitFailure              -- exit(EXIT_FAILURE)
  | exitSuccess              -- exit/return EXIT_SUCCESS
deriving DecidableEq, Repr

/-- The interruption oracle: `intr k = true` iff the `k`-th `nanosleep`
of the process is interrupted by SIGINT/SIGTERM. -/
def noIntr (intr : Nat → Bool) : Prop := ∀ j, intr j = false

/-- Result of running a program fragment: the events it emits, the next
sleep sequence number, and whether it called `exit` (ending the
process). -/
structure PRes where
  trace : List Ev
  k : Nat
  exited : Bool
deriving Repr

/-- `sleep_ms` from beep-main.c lines 289-308: install no-op handlers for
SIGINT/SIGTERM, `nanosleep`, and on EINTR stop the tone, close the
driver, and `exit(EXIT_FAILURE)`; otherwise restore SIG_DFL and return.
`t` is the ghost call-site tag, `k` the sleep sequence number. -/
def sleep_ms (intr : Nat → Bool) (t : SleepTag) (k : Nat) (ms : Nat) : PRes :=
  if intr k then
    ⟨[.sigInstall, .sleep t ms, .stopTone, .close, .exitFailure], k + 1, true⟩
  else
    ⟨[.sigInstall, .sleep t ms, .sigRestore], k + 1, false⟩

/-- The `for` loop of `play_beep` (beep-main.c lines 320-327), starting
from loop counter `i`: begin tone at `freq & 0xffff`, sleep the tone
length, end tone, and sleep the delay when
`end_delay == END_DELAY_YES || (i+1) < reps`. -/
def play_loop (p : beep_parms_T) (intr : Nat → Bool) (i k : Nat) : PRes :=
  if _h : i < p.reps then
    let s1 := sleep_ms intr .tone k p.length
    if s1.exited then
      ⟨.startTone (p.freq &&& 65535) :: s1.trace, s1.k, true⟩
    else if p.end_delay = true ∨ i + 1 < p.reps then
      let s2 := sleep_ms intr .delay s1.k p.delay
      if s2.exited then
        ⟨.startTone (p.freq &&& 65535) :: (s1.trace ++ .stopTone :: s2.trace), s2.k, true⟩
      else
        let r := play_loop p intr (i + 1) s2.k
        ⟨.startTone (p.freq &&& 65535) :: (s1.trace ++ .stopTone :: (s2.trace ++ r.trace)),
         r.k, r.exited⟩
    else
      let r := play_loop p intr (i + 1) s1.k
      ⟨.startTone (p.freq &&& 65535) :: (s1.trace ++ .stopTone :: r.trace), r.k, r.exited⟩
  else ⟨[], k, false⟩
termination_by p.reps - i

/-- `play_beep` from beep-main.c lines 311-328.  The `playCall` event is
ghost instrumentation marking each invocation of the function. -/
def play_beep (p : beep_parms_T) (intr : Nat → Bool) (k : Nat) : PRes :=
  let r := play_loop p intr 0 k
  ⟨.playCall :: r.trace, r.k, r.exited⟩

/-- The NUL character, which terminates C strings. -/
def nulChar : Char := Char.ofNat 0

/-- The C-string view of a buffer: its characters up to (excluding) the
first NUL byte.  This is what `fputs(sin, stdout)` prints and what the
`for (char *ptr=sin; *ptr; ptr++)` loop of beep-main.c line 445
iterates over. -/
def cstr (l : List Char) : List Char := l.takeWhile (fun c => c ≠ nulChar)

/-- `fgets(sin, n+1, stdin)` on a remaining input stream: reads at most
`n` characters, stopping after a newline; returns the chunk read and the
rest of the stream.  (beep-main.c line 443 calls it with `n+1 = 4096`.)
On an empty stream (end of file) `fgets` returns NULL, which callers
detect via the stream being empty. -/
def takeLine : Nat → List Char → List Char × List Char
  | _, [] => ([], [])
  | 0, l => ([], l)
  | n + 1, c :: cs =>
    if c = '\n' then ([c], cs)
    else
      let r := takeLine n cs
      (c :: r.1, r.2)

/-- The character loop of stdin-per-character mode (beep-main.c lines
445-449): for each character of the chunk, up to the first NUL:
`putchar`, `fflush(stdout)`, `play_beep`. -/
def char_loop (p : beep_parms_T) (intr : Nat → Bool) : List Char → Nat → PRes
  | [], k => ⟨[], k, false⟩
  | ch :: cs, k =>
    let pb := play_beep p intr k
    if pb.exited then
      ⟨.echo [ch] :: .flush :: pb.trace, pb.k, true⟩
    else
      let r := char_loop p intr cs pb.k
      ⟨.echo [ch] :: .flush :: (pb.trace ++ r.trace), r.k, r.exited⟩

/-- The `while (fgets(sin, 4096, stdin))` loop of beep-main.c lines
443-454: read a chunk; in per-character mode run `char_loop` over its
C-string view; in per-line mode `fputs` the C-string view and call
`play_beep` once. -/
def stdin_loop (p : beep_parms_T) (intr : Nat → Bool) (input : List Char) (k : Nat) : PRes :=
  match input with
  | [] => ⟨[], k, false⟩
  | c :: cs =>
    let chunk := takeLine 4095 (c :: cs)
    let r :=
      if p.stdin_beep = .char then
        char_loop p intr (cstr chunk.1) k
      else
        let pb := play_beep p intr k
        ⟨.echo (cstr chunk.1) :: pb.trace, pb.k, pb.exited⟩
    if r.exited then r
    else
      let r2 := stdin_loop p intr chunk.2 r.k
      ⟨r.trace ++ r2.trace, r2.k, r2.exited⟩
termination_by input.length
decreasing_by
  have hle : ∀ n (l : List Char), (takeLine n l).2.length ≤ l.length := by
    intro n
    induction n with
    | zero => intro l; cases l <;> simp [takeLine]
    | succ m ihm =>
      intro l
      cases l with
      | nil => simp [takeLine]
      | cons a as =>
        rw [takeLine]
        by_cases hnl : a = '\n'
        · simp [hnl]
        · simp only [if_neg hnl, List.length_cons]
          have := ihm as
          omega
  have h1 : (takeLine 4095 (c :: cs)).2.length ≤ cs.length + 1 - 1 := by
    rw [takeLine]
    by_cases hnl : c = '\n'
    · simp [hnl]
    · simp only [if_neg hnl]
      have := hle 4094 cs
      simpa using this
  simp only [List.length_cons]
  omega

/-- The `while (parms)` loop of `main` (beep-main.c lines 426-462): for
each parameter block, either enter stdin-triggered mode (disabling stdin
and stdout buffering first) or play the beep directly, then free the
block.  A stdin-triggered request consumes the input stream to end of
file, so the next block sees an empty stream. -/
def chain_loop (intr : Nat → Bool) : List beep_parms_T → List Char → Nat → PRes
  | [], _, k => ⟨[], k, false⟩
  | p :: rest, input, k =>
    let r :=
      if p.stdin_beep = .none then play_beep p intr k
      else
        let s := stdin_loop p intr input k
        ⟨.setvbufIn :: .setvbufOut :: s.trace, s.k, s.exited⟩
    if r.exited then r
    else
      let r2 := chain_loop intr rest (if p.stdin_beep = .none then input else []) r.k
      ⟨r.trace ++ .free :: r2.trace, r2.k, r2.exited⟩

/-!
## Command-line parsing (beep-main.c lines 156-286)

`getopt_long` itself is libc; we model its output as a list of
recognised option tokens.  The `sscanf("%u")` / `sscanf("%f")` numeric
scans are likewise libc and are modelled by `Option` values (`none` for
a scan that did not match, i.e. `sscanf(...) != 1`); a float argument is
idealised as a rational number.  Unrecognised options (getopt returning
a character not in the switch) are the `unknown` token. -/
inductive OptTok
  | f (v : Option ℚ)      -- -f <freq>
  | l (v : Option Nat)    -- -l <length>
  | r (v : Option Nat)    -- -r <reps>
  | d (v : Option Nat)    -- -d <delay>, end delay NO
  | D (v : Option Nat)    -- -D <delay>, end delay YES
  | s                     -- -s : stdin line mode
  | c                     -- -c : stdin char mode
  | vV                    -- -v / -V / --version
  | n                     -- -n / --new
  | X                     -- --verbose / --debug
  | e (dev : String)      -- -e / --device
  | h                     -- -h / --help
  | unknown               -- anything else: usage_bail()
deriving DecidableEq, Repr

/-- How `parse_command_line` (and the option handlers that call `exit`)
finishes. -/
inductive ParseResult
  | bail                      -- usage_bail(): usage text + exit failure
  | helpExit                  -- -h: usage text + exit success
  | versionExit               -- -v/-V: version text + exit success
  | errDeviceDup              -- --device given twice: log_error + exit failure
  | ok (chain : List beep_parms_T) (device : Option String)
deriving DecidableEq, Repr

/-- Parser state: completed parameter blocks (the chain prefix built by
`-n`), the block currently being filled in (what `result` points to in
the C code), and `param_device_name`. -/
structure ParseSt where
  done : List beep_parms_T
  cur : beep_parms_T
  device : Option String
deriving DecidableEq, Repr

/-- The initial parameter block set up in `main` (beep-main.c lines
380-386): freq 0 (sentinel for "not given"), DEFAULT_LENGTH 200,
DEFAULT_REPS 1, DEFAULT_DELAY 100, END_DELAY_NO, STDIN_BEEP_NONE. -/
def defaultParms : beep_parms_T :=
  ⟨0, 200, 1, 100, false, .none⟩

/-- `if (result->freq == 0) result->freq = DEFAULT_FREQ;`
(beep-main.c lines 244-246 and 283-285). -/
def defaultFreq (p : beep_parms_T) : beep_parms_T :=
  if p.freq = 0 then { p with freq := 440 } else p

/-- One iteration of the `getopt_long` switch (beep-main.c lines
179-277).  `(int)(argval_f + 0.5f)` truncates toward zero; the guard
`0 <= argval_f` makes that the floor of `argval_f + 1/2`. -/
def parse_step (st : ParseSt) : OptTok → Except ParseResult ParseSt
  | .f Option.none => .error .bail
  | .f (some q) =>
    if 0 ≤ q ∧ q ≤ 20000 then
      .ok { st with cur := { st.cur with freq := (⌊q + 1/2⌋).toNat } }
    else .error .bail
  | .l Option.none => .error .bail
  | .l (some v) =>
    if v > 300000 then .error .bail
    else .ok { st with cur := { st.cur with length := v } }
  | .r Option.none => .error .bail
  | .r (some v) =>
    if v > 300000 then .error .bail
    else .ok { st with cur := { st.cur with reps := v } }
  | .d Option.none => .error .bail
  | .d (some v) =>
    if v > 300000 then .error .bail
    else .ok { st with cur := { st.cur with delay := v, end_delay := false } }
  | .D Option.none => .error .bail
  | .D (some v) =>
    if v > 300000 then .error .bail
    else .ok { st with cur := { st.cur with delay := v, end_delay := true } }
  | .s => .ok { st with cur := { st.cur with stdin_beep := .line } }
  | .c => .ok { st with cur := { st.cur with stdin_beep := .char } }
  | .vV => .error .versionExit
  | .n => .ok ⟨st.done ++ [defaultFreq st.cur], defaultParms, st.device⟩
  | .X => .ok st
  | .e dev =>
    if st.device.isSome then .error .errDeviceDup
    else .ok { st with device := some dev }
  | .h => .error .helpExit
  | .unknown => .error .bail

/-- The `while (getopt_long(...))` loop. -/
def parse_loop : ParseSt → List OptTok → Except ParseResult ParseSt
  | st, [] => .ok st
  | st, t :: ts =>
    match parse_step st t with
    | .error r => .error r
    | .ok st2 => parse_loop st2 ts

/-- `parse_command_line` (beep-main.c lines 156-286): run the option
loop; bail if non-option arguments remain (`optind < argc`); apply the
frequency default to the final block. -/
def parse_command_line (toks : List OptTok) (hasNonOptArgs : Bool) : ParseResult :=
  match parse_loop ⟨[], defaultParms, Option.none⟩ toks with
  | .error r => r
  | .ok st =>
    if hasNonOptArgs then .bail
    else .ok (st.done ++ [defaultFreq st.cur]) st.device

/-!
## `main` (beep-main.c lines 342-468)
-/

/-- The process environment relevant to a run of `main`: real/effective
user and group ids, which of the four SUDO_* environment variables are
set, the tokenised command line, whether non-option arguments remain,
whether `beep_drivers_detect` succeeds (the driver layer is a separate
source file, so its outcome is an environment fact), whether stdout is a
tty, the stdin stream, and the sleep interruption oracle. -/
structure Env where
  uid : Nat
  euid : Nat
  gid : Nat
  egid : Nat
  sudoCommand : Bool
  sudoUser : Bool
  sudoUid : Bool
  sudoGid : Bool
  opts : List OptTok
  hasNonOptArgs : Bool
  detectOk : Bool
  stdoutTTY : Bool
  stdinInput : List Char
  intr : Nat → Bool

/-- The playing part of `main` (beep-main.c lines 426-467): the chain
loop, then — unless a sleep was interrupted and the process already
exited — `beep_drivers_end_tone`, `beep_drivers_fini`, and return
EXIT_SUCCESS. -/
def mainPlay (env : Env) (chain : List beep_parms_T) : List Ev :=
  let r := chain_loop env.intr chain env.stdinInput 0
  .openDevice :: r.trace ++
    (if r.exited then [] else [.stopTone, .close, .exitSuccess])

/-- `main` after `parse_command_line` returned normally (beep-main.c
lines 390-467): register the console and evdev drivers, detect a device
(with `fallback_beep`, lines 331-339, emitting a BEL iff stdout is a tty
when no explicit device was requested), then play. -/
def main_after_parse (env : Env) (chain : List beep_parms_T) (dev : Option String) : List Ev :=
  [.register, .register] ++
  match dev with
  | some name =>
    if env.detectOk then mainPlay env chain
    else [.errMsg ("Could not open " ++ name ++ " for writing"), .exitFailure]
  | Option.none =>
    if env.detectOk then mainPlay env chain
    else
      [.errMsg "Could not open any device"] ++
      (if env.stdoutTTY then [.bell] else []) ++ [.exitFailure]

/-- `main` (beep-main.c lines 342-468): the setuid/setgid guard, the
sudo guard, then command-line parsing and the rest of the program. -/
def main_run (env : Env) : List Ev :=
  if env.uid ≠ env.euid ∨ env.gid ≠ env.egid then
    [.errMsg "Running setuid or setgid, which is not supported for security reasons.",
     .errMsg "Set up permissions for the pcspkr evdev device file instead.",
     .exitFailure]
  else if env.sudoCommand || env.sudoUser || env.sudoUid || env.sudoGid then
    [.errMsg "Running under sudo, which is not supported for security reasons.",
     .errMsg "Set up permissions for the pcspkr evdev device file instead.",
     .exitFailure]
  else
    match parse_command_line env.opts env.hasNonOptArgs with
    | .bail => [.usage, .exitFailure]
    | .helpExit => [.usage, .exitSuccess]
    | .versionExit => [.versionOut, .exitSuccess]
    | .errDeviceDup =>
      [.errMsg "You cannot give the --device parameter more than once.", .exitFailure]
    | .ok chain dev => main_after_parse env chain dev

/-!
## Specification-side definitions
-/

/-- A concrete environment for instantiating theorems: ids match, no
SUDO variables, empty command line. -/
def testEnv (detect tty : Bool) (input : List Char) (intr : Nat → Bool) : Env :=
  ⟨0, 0, 0, 0, false, false, false, false, [], false, detect, tty, input, intr⟩

/-- The events of one iteration `i` of the `play_beep` loop when the
sleeps are not interrupted. -/
def iterBlock (p : beep_parms_T) (i : Nat) : List Ev :=
  .startTone (p.freq &&& 65535) :: .sigInstall :: .sleep .tone p.length ::
    .sigRestore :: .stopTone ::
    (if p.end_delay = true ∨ i + 1 < p.reps then
      [.sigInstall, .sleep .delay p.delay, .sigRestore]
    else [])

/-- The uninterrupted trace of the `play_beep` loop from iteration `i`. -/
def blocksFrom (p : beep_parms_T) (i : Nat) : List Ev :=
  if i < p.reps then iterBlock p i ++ blocksFrom p (i + 1) else []
termination_by p.reps - i

/-- The uninterrupted trace of one `play_beep` call. -/
def normalPlayTrace (p : beep_parms_T) : List Ev :=
  .playCall :: blocksFrom p 0

/-- Tone on/off events, the calls into the driver's start/stop
operations. -/
def isToneEv : Ev → Bool
  | .startTone _ => true
  | .stopTone => true
  | _ => false

/-- An inter-repetition delay sleep (the `sleep_ms(driver, parms.delay)`
call site). -/
def isDelaySleep : Ev → Bool
  | .sleep .delay _ => true
  | _ => false

/-- The frequency argument of a `startTone` event, if any. -/
def toneValue : Ev → Option Nat
  | .startTone v => some v
  | _ => Option.none

/-- The frequencies delivered to the driver's start-tone operation, in
order, over a trace. -/
def deliveredFreqs (t : List Ev) : List Nat := t.filterMap toneValue

/-- Events that can appear in the body of the `play_beep` loop. -/
def isPlayEv : Ev → Bool
  | .startTone _ => true
  | .stopTone => true
  | .sigInstall => true
  | .sigRestore => true
  | .sleep _ _ => true
  | _ => false

/-- Events other than driver close and process exit: a trace fragment of
a still-running process that has not closed its device consists of these
only. -/
def liveEv : Ev → Bool
  | .close => false
  | .exitFailure => false
  | .exitSuccess => false
  | _ => true

/-- A trace fragment emitted while the process is still running and its
device still open: no close, no exit. -/
def livePre (l : List Ev) : Prop := ∀ x ∈ l, liveEv x = true

/-- The teardown run by `sleep_ms` when `nanosleep` is interrupted
(beep-main.c lines 300-304), together with the installation and the
interrupted sleep that precede it. -/
def interruptedWindow (t : SleepTag) (ms : Nat) : List Ev :=
  [.sigInstall, .sleep t ms, .stopTone, .close, .exitFailure]

/-- Events that are executed with default signal disposition (outside
any install/restore window of `sleep_ms`). -/
def sigFree : Ev → Bool
  | .sigInstall => false
  | .sigRestore => false
  | .sleep _ _ => false
  | _ => true

/-- The per-sleep-call signal-handling discipline of `sleep_ms`
(beep-main.c lines 297-306): handlers are installed immediately before
each `nanosleep` and restored immediately after it returns normally, so
a trace decomposes into sig-free events (run with default disposition),
complete `[sigInstall, sleep, sigRestore]` windows, and — only at the
very end of the trace — an interrupted window whose teardown
(stop tone, close, exit) runs inside `sleep_ms` itself. -/
inductive Scoped : List Ev → Prop
  | nil : Scoped []
  | free (e : Ev) (l : List Ev) : sigFree e = true → Scoped l → Scoped (e :: l)
  | window (t : SleepTag) (ms : Nat) (l : List Ev) :
      Scoped l → Scoped (.sigInstall :: .sleep t ms :: .sigRestore :: l)
  | teardownEnd (t : SleepTag) (ms : Nat) : Scoped (interruptedWindow t ms)

/-- The combined interruption-shape invariant for a fragment result: if
it exited, its trace is live events followed by the interrupted window;
if not, its trace is live events only. -/
def shapeOk (r : PRes) : Prop :=
  (r.exited = true →
    ∃ pre t ms, r.trace = pre ++ interruptedWindow t ms ∧ livePre pre) ∧
  (r.exited = false → livePre r.trace)

/-- The signal-scoping invariant for a fragment result: a fragment that
did not exit can be extended by any well-scoped continuation, and a
fragment that exited is well-scoped on its own (it ends with the
interrupted window). -/
def scopedOk (r : PRes) : Prop :=
  (r.exited = false → ∀ cont, Scoped cont → Scoped (r.trace ++ cont)) ∧
  (r.exited = true → Scoped r.trace)

/-- `breakLine` splits off the first line of a character stream: the
characters up to and including the first newline (the idealised,
unbounded version of `takeLine`). -/
def breakLine : List Char → List Char × List Char
  | [] => ([], [])
  | c :: cs =>
    if c = '\n' then ([c], cs)
    else
      let r := breakLine cs
      (c :: r.1, r.2)

/-- A character stream as the list of its lines (each including its
terminating newline, except possibly the last). -/
def lineSplit : List Char → List (List Char)
  | [] => []
  | c :: cs => (breakLine (c :: cs)).1 :: lineSplit (breakLine (c :: cs)).2
termination_by l => l.length
decreasing_by
  have hle : ∀ (l : List Char), (breakLine l).2.length ≤ l.length := by
    intro l
    induction l with
    | nil => simp [breakLine]
    | cons a as iha =>
      rw [breakLine]
      by_cases hnl : a = '\n'
      · simp [hnl]
      · simp only [if_neg hnl, List.length_cons]
        omega
  rw [breakLine]
  by_cases hnl : c = '\n'
  · simp [hnl]
  · simp only [if_neg hnl, List.length_cons]
    have := hle cs
    omega

/-!
## Basic lemmas about the playback loop
-/

theorem play_loop_noIntr (p : beep_parms_T) (intr : Nat → Bool) (hI : noIntr intr) :
    ∀ n i k, p.reps - i ≤ n →
      (play_loop p intr i k).trace = blocksFrom p i ∧
      (play_loop p intr i k).exited = false := by
  intro n
  induction n with
  | zero =>
    intro i k hn
    have hge : p.reps ≤ i := by omega
    rw [play_loop, blocksFrom]
    simp [Nat.not_lt.mpr hge]
  | succ n ih =>
    intro i k hn
    by_cases h : i < p.reps
    · have hs1 : sleep_ms intr .tone k p.length =
          ⟨[.sigInstall, .sleep .tone p.length, .sigRestore], k + 1, false⟩ := by
        rw [sleep_ms, hI k]; simp
      rw [play_loop, blocksFrom]
      rw [dif_pos h, if_pos h]
      rw [hs1]
      by_cases hd : p.end_delay = true ∨ i + 1 < p.reps
      · have hs2 : sleep_ms intr .delay (k + 1) p.delay =
            ⟨[.sigInstall, .sleep .delay p.delay, .sigRestore], k + 2, false⟩ := by
          rw [sleep_ms, hI (k + 1)]; simp
        obtain ⟨iht, ihe⟩ := ih (i + 1) (k + 2) (by omega)
        simp only [if_pos hd, hs2, iterBlock]
        simp [iht, ihe, hd]
      · obtain ⟨iht, ihe⟩ := ih (i + 1) (k + 1) (by omega)
        simp only [if_neg hd, iterBlock]
        simp [iht, ihe, hd]
    · rw [play_loop, blocksFrom]
      simp [h]

theorem play_beep_noIntr (p : beep_parms_T) (intr : Nat → Bool) (hI : noIntr intr) (k : Nat) :
    (play_beep p intr k).trace = normalPlayTrace p ∧
    (play_beep p intr k).exited = false := by
  obtain ⟨ht, he⟩ := play_loop_noIntr p intr hI (p.reps) 0 k (by omega)
  rw [play_beep, normalPlayTrace]
  simp [ht, he]

theorem blocksFrom_filter_tone (p : beep_parms_T) :
    ∀ n i, p.reps - i ≤ n →
      (blocksFrom p i).filter isToneEv =
        (List.replicate (p.reps - i)
          [Ev.startTone (p.freq &&& 65535), Ev.stopTone]).flatten := by
  intro n
  induction n with
  | zero =>
    intro i hn
    have hge : p.reps ≤ i := by omega
    rw [blocksFrom]
    simp [Nat.not_lt.mpr hge, Nat.sub_eq_zero_of_le hge]
  | succ n ih =>
    intro i hn
    by_cases h : i < p.reps
    · rw [blocksFrom, if_pos h, List.filter_append, ih (i + 1) (by omega)]
      have hrr : p.reps - i = (p.reps - (i + 1)) + 1 := by omega
      rw [hrr, List.replicate_succ, List.flatten_cons]
      congr 1
      rw [iterBlock]
      split <;> simp [isToneEv]
    · rw [blocksFrom, if_neg h]
      simp [Nat.sub_eq_zero_of_le (Nat.not_lt.mp h)]

theorem blocksFrom_delivered (p : beep_parms_T) :
    ∀ n i, p.reps - i ≤ n →
      deliveredFreqs (blocksFrom p i) =
        List.replicate (p.reps - i) (p.freq &&& 65535) := by
  intro n
  induction n with
  | zero =>
    intro i hn
    have hge : p.reps ≤ i := by omega
    rw [blocksFrom]
    simp [Nat.not_lt.mpr hge, Nat.sub_eq_zero_of_le hge, deliveredFreqs]
  | succ n ih =>
    intro i hn
    by_cases h : i < p.reps
    · rw [blocksFrom, if_pos h]
      rw [deliveredFreqs, List.filterMap_append]
      have ihd := ih (i + 1) (by omega)
      rw [deliveredFreqs] at ihd
      rw [ihd]
      have hrr : p.reps - i = (p.reps - (i + 1)) + 1 := by omega
      rw [hrr, List.replicate_succ]
      have hblk : (iterBlock p i).filterMap toneValue = [p.freq &&& 65535] := by
        rw [iterBlock]
        split <;> simp [toneValue]
      rw [hblk]
      simp
    · rw [blocksFrom, if_neg h]
      simp [Nat.sub_eq_zero_of_le (Nat.not_lt.mp h), deliveredFreqs]

theorem blocksFrom_delay_count (p : beep_parms_T) :
    ∀ n i, p.reps - i ≤ n →
      (blocksFrom p i).countP isDelaySleep =
        (if p.end_delay then p.reps - i else p.reps - i - 1) := by
  intro n
  induction n with
  | zero =>
    intro i hn
    have hge : p.reps ≤ i := by omega
    rw [blocksFrom]
    simp [Nat.not_lt.mpr hge, Nat.sub_eq_zero_of_le hge]
  | succ n ih =>
    intro i hn
    by_cases h : i < p.reps
    · rw [blocksFrom, if_pos h, List.countP_append, ih (i + 1) (by omega)]
      have hblk : (iterBlock p i).countP isDelaySleep =
          (if p.end_delay = true ∨ i + 1 < p.reps then 1 else 0) := by
        rw [iterBlock]
        split <;> simp [isDelaySleep, List.countP_cons]
      rw [hblk]
      cases hB : p.end_delay with
      | true => simp only [hB, true_or, if_true]; omega
      | false =>
        by_cases hlast : i + 1 < p.reps
        · simp only [hB, hlast, Bool.false_eq_true, false_or, if_true, if_false]
          omega
        · simp only [hB, hlast, Bool.false_eq_true, false_or, if_false]
          omega
    · rw [blocksFrom, if_neg h]
      have hz : p.reps - i = 0 := Nat.sub_eq_zero_of_le (Nat.not_lt.mp h)
      simp [hz]

theorem blocksFrom_ends_stop (p : beep_parms_T) (hed : p.end_delay = false) :
    ∀ n i, p.reps - i ≤ n → i < p.reps →
      ∃ t, blocksFrom p i = t ++ [Ev.stopTone] := by
  intro n
  induction n with
  | zero =>
    intro i hn hi
    omega
  | succ n ih
  =>
    intro i hn hi
    rw [blocksFrom, if_pos hi]
    by_cases hlast : i + 1 < p.reps
    · obtain ⟨t, ht⟩ := ih (i + 1) (by omega) hlast
      exact ⟨iterBlock p i ++ t, by rw [ht, List.append_assoc]⟩
    · have hnil : blocksFrom p (i + 1) = [] := by
        rw [blocksFrom, if_neg hlast]
      have hcond : ¬(p.end_delay = true ∨ i + 1 < p.reps) := by
        intro hc
        rcases hc with hc | hc
        · rw [hed] at hc; exact Bool.false_ne_true hc
        · exact hlast hc
      rw [hnil, iterBlock, if_neg hcond]
      exact ⟨[.startTone (p.freq &&& 65535), .sigInstall, .sleep .tone p.length,
              .sigRestore], by simp⟩

theorem iterBlock_all_playEv (p : beep_parms_T) (i : Nat) :
    ∀ x ∈ iterBlock p i, isPlayEv x = true := by
  intro x hx
  rw [iterBlock] at hx
  by_cases hd : p.end_delay = true ∨ i + 1 < p.reps
  · rw [if_pos hd] at hx
    simp only [List.mem_cons, List.not_mem_nil, or_false] at hx
    rcases hx with rfl | rfl | rfl | rfl | rfl | rfl | rfl | rfl <;> simp [isPlayEv]
  · rw [if_neg hd] at hx
    simp only [List.mem_cons, List.not_mem_nil, or_false] at hx
    rcases hx with rfl | rfl | rfl | rfl | rfl <;> simp [isPlayEv]

theorem blocksFrom_all_playEv (p : beep_parms_T) :
    ∀ n i, p.reps - i ≤ n → ∀ x ∈ blocksFrom p i, isPlayEv x = true := by
  intro n
  induction n with
  | zero =>
    intro i hn
    have hge : p.reps ≤ i := by omega
    rw [blocksFrom]
    simp [Nat.not_lt.mpr hge]
  | succ n ih =>
    intro i hn x hx
    by_cases h : i < p.reps
    · rw [blocksFrom, if_pos h] at hx
      rcases List.mem_append.mp hx with hx | hx
      · exact iterBlock_all_playEv p i x hx
      · exact ih (i + 1) (by omega) x hx
    · rw [blocksFrom, if_neg h] at hx
      exact absurd hx (List.not_mem_nil x)

/-!
## Shape of interrupted executions

If a sleep is interrupted, the trace ends with the interrupted window —
the installed handlers, the cut-short sleep, and the teardown
(stop tone, close, exit failure) — and everything before it is a
"live" event (no close, no exit).
-/

theorem livePre_nil : livePre [] := by
  intro x hx
  exact absurd hx (List.not_mem_nil x)

theorem livePre_cons {e : Ev} {l : List Ev} (he : liveEv e = true) (hl : livePre l) :
    livePre (e :: l) := by
  intro x hx
  rcases List.mem_cons.mp hx with rfl | hx
  · exact he
  · exact hl x hx

theorem livePre_append {a b : List Ev} (ha : livePre a) (hb : livePre b) :
    livePre (a ++ b) := by
  intro x hx
  rcases List.mem_append.mp hx with hx | hx
  · exact ha x hx
  · exact hb x hx

theorem livePre_normalWindow (t : SleepTag) (ms : Nat) :
    livePre [Ev.sigInstall, Ev.sleep t ms, Ev.sigRestore] := by
  intro x hx
  simp only [List.mem_cons, List.not_mem_nil, or_false] at hx
  rcases hx with rfl | rfl | rfl <;> simp [liveEv]

theorem not_mem_of_livePre {e : Ev} {l : List Ev} (he : liveEv e = false)
    (hl : livePre l) : e ∉ l := by
  intro hc
  rw [hl e hc] at he
  exact absurd he (by decide)

theorem sleep_ms_shape (intr : Nat → Bool) (t : SleepTag) (k ms : Nat) :
    shapeOk (sleep_ms intr t k ms) := by
  rw [sleep_ms]
  cases hk : intr k with
  | true =>
    refine ⟨fun _ => ⟨[], t, ms, ?_, livePre_nil⟩, fun hf => ?_⟩
    · simp [interruptedWindow]
    · simp at hf
  | false =>
    refine ⟨fun ht => ?_, fun _ => ?_⟩
    · simp at ht
    · exact livePre_normalWindow t ms

theorem play_loop_shape (p : beep_parms_T) (intr : Nat → Bool) :
    ∀ n i k, p.reps - i ≤ n → shapeOk (play_loop p intr i k) := by
  intro n
  induction n with
  | zero =>
    intro i k hn
    have hge : p.reps ≤ i := by omega
    rw [play_loop, dif_neg (Nat.not_lt.mpr hge)]
    exact ⟨fun ht => by simp at ht, fun _ => livePre_nil⟩
  | succ n ih =>
    intro i k hn
    by_cases h : i < p.reps
    · rw [play_loop, dif_pos h]
      cases hk : intr k with
      | true =>
        have hs1 : sleep_ms intr .tone k p.length =
            ⟨interruptedWindow .tone p.length, k + 1, true⟩ := by
          rw [sleep_ms, hk]
          simp [interruptedWindow]
        rw [hs1]
        simp only [if_true]
        refine ⟨fun _ => ⟨[.startTone (p.freq &&& 65535)], .tone, p.length, by simp, ?_⟩,
                fun hf => by simp at hf⟩
        exact livePre_cons (by simp [liveEv]) livePre_nil
      | false =>
        have hs1 : sleep_ms intr .tone k p.length =
            ⟨[.sigInstall, .sleep .tone p.length, .sigRestore], k + 1, false⟩ := by
          rw [sleep_ms, hk]
          simp
        rw [hs1]
        simp only [Bool.false_eq_true, if_false]
        by_cases hd : p.end_delay = true ∨ i + 1 < p.reps
        · rw [if_pos hd]
          cases hk2 : intr (k + 1) with
          | true =>
            have hs2 : sleep_ms intr .delay (k + 1) p.delay =
                ⟨interruptedWindow .delay p.delay, k + 2, true⟩ := by
              rw [sleep_ms, hk2]
              simp [interruptedWindow]
            rw [hs2]
            simp only [if_true]
            refine ⟨fun _ => ⟨.startTone (p.freq &&& 65535) ::
              [Ev.sigInstall, Ev.sleep .tone p.length, Ev.sigRestore] ++ [Ev.stopTone],
              .delay, p.delay, by simp, ?_⟩, fun hf => by simp at hf⟩
            refine livePre_cons (by simp [liveEv]) (livePre_append (livePre_normalWindow _ _) ?_)
            exact livePre_cons (by simp [liveEv]) livePre_nil
          | false =>
            have hs2 : sleep_ms intr .delay (k + 1) p.delay =
                ⟨[.sigInstall, .sleep .delay p.delay, .sigRestore], k + 2, false⟩ := by
              rw [sleep_ms, hk2]
              simp
            rw [hs2]
            simp only [Bool.false_eq_true, if_false]
            obtain ⟨ihx, ihl⟩ := ih (i + 1) (k + 2) (by omega)
            constructor
            · intro ht
              simp only at ht
              obtain ⟨pre, t, ms, htr, hpre⟩ := ihx ht
              refine ⟨.startTone (p.freq &&& 65535) ::
                ([Ev.sigInstall, Ev.sleep .tone p.length, Ev.sigRestore] ++
                 Ev.stopTone :: ([Ev.sigInstall, Ev.sleep .delay p.delay, Ev.sigRestore] ++ pre)),
                t, ms, ?_, ?_⟩
              · simp only [htr]
                simp
              · refine livePre_cons (by simp [liveEv]) (livePre_append (livePre_normalWindow _ _) ?_)
                refine livePre_cons (by simp [liveEv]) (livePre_append (livePre_normalWindow _ _) hpre)
            · intro hf
              simp only at hf
              refine livePre_cons (by simp [liveEv]) (livePre_append (livePre_normalWindow _ _) ?_)
              refine livePre_cons (by simp [liveEv]) (livePre_append (livePre_normalWindow _ _) (ihl hf))
        · rw [if_neg hd]
          obtain ⟨ihx, ihl⟩ := ih (i + 1) (k + 1) (by omega)
          constructor
          · intro ht
            simp only at ht
            obtain ⟨pre, t, ms, htr, hpre⟩ := ihx ht
            refine ⟨.startTone (p.freq &&& 65535) ::
              ([Ev.sigInstall, Ev.sleep .tone p.length, Ev.sigRestore] ++ Ev.stopTone :: pre),
              t, ms, ?_, ?_⟩
            · simp only [htr]
              simp
            · refine livePre_cons (by simp [liveEv]) (livePre_append (livePre_normalWindow _ _) ?_)
              exact livePre_cons (by simp [liveEv]) hpre
          · intro hf
            simp only at hf
            refine livePre_cons (by simp [liveEv]) (livePre_append (livePre_normalWindow _ _) ?_)
            exact livePre_cons (by simp [liveEv]) (ihl hf)
    · rw [play_loop, dif_neg h]
      exact ⟨fun ht => by simp at ht, fun _ => livePre_nil⟩

theorem play_beep_shape (p : beep_parms_T) (intr : Nat → Bool) (k : Nat) :
    shapeOk (play_beep p intr k) := by
  obtain ⟨hx, hl⟩ := play_loop_shape p intr p.reps 0 k (by omega)
  rw [play_beep]
  constructor
  · intro ht
    simp only at ht
    obtain ⟨pre, t, ms, htr, hpre⟩ := hx ht
    exact ⟨.playCall :: pre, t, ms, by simp [htr],
           livePre_cons (by simp [liveEv]) hpre⟩
  · intro hf
    simp only at hf
    exact livePre_cons (by simp [liveEv]) (hl hf)

theorem char_loop_shape (p : beep_parms_T) (intr : Nat → Bool) :
    ∀ cs k, shapeOk (char_loop p intr cs k) := by
  intro cs
  induction cs with
  | nil =>
    intro k
    rw [char_loop]
    exact ⟨fun ht => by simp at ht, fun _ => livePre_nil⟩
  | cons ch cs ihc =>
    intro k
    obtain ⟨pbx, pbl⟩ := play_beep_shape p intr k
    cases hpe : (play_beep p intr k).exited with
    | true =>
      simp only [char_loop, hpe, if_true]
      refine ⟨fun _ => ?_, fun hf => by simp at hf⟩
      obtain ⟨pre, t, ms, htr, hpre⟩ := pbx hpe
      exact ⟨.echo [ch] :: .flush :: pre, t, ms, by simp [htr],
        livePre_cons (by simp [liveEv]) (livePre_cons (by simp [liveEv]) hpre)⟩
    | false =>
      simp only [char_loop, hpe, Bool.false_eq_true, if_false]
      obtain ⟨rx, rl⟩ := ihc (play_beep p intr k).k
      constructor
      · intro ht
        simp only at ht
        obtain ⟨pre, t, ms, htr, hpre⟩ := rx ht
        refine ⟨.echo [ch] :: .flush :: ((play_beep p intr k).trace ++ pre), t, ms,
          by simp [htr], ?_⟩
        exact livePre_cons (by simp [liveEv]) (livePre_cons (by simp [liveEv])
          (livePre_append (pbl hpe) hpre))
      · intro hf
        simp only at hf
        exact livePre_cons (by simp [liveEv]) (livePre_cons (by simp [liveEv])
          (livePre_append (pbl hpe) (rl hf)))

theorem stdin_loop_shape (p : beep_parms_T) (intr : Nat → Bool) :
    ∀ m input k, input.length ≤ m → shapeOk (stdin_loop p intr input k) := by
  intro m
  induction m with
  | zero =>
    intro input k hm
    have : input = [] := List.length_eq_zero.mp (Nat.le_zero.mp hm)
    subst this
    rw [stdin_loop]
    exact ⟨fun ht => by simp at ht, fun _ => livePre_nil⟩
  | succ m ihm =>
    intro input k hm
    cases input with
    | nil =>
      rw [stdin_loop]
      exact ⟨fun ht => by simp at ht, fun _ => livePre_nil⟩
    | cons c cs =>
      rw [stdin_loop]
      have hrest : (takeLine 4095 (c :: cs)).2.length ≤ m := by
        have hle : ∀ nn (l : List Char), (takeLine nn l).2.length ≤ l.length := by
          intro nn
          induction nn with
          | zero => intro l; cases l <;> simp [takeLine]
          | succ mm ihmm =>
            intro l
            cases l with
            | nil => simp [takeLine]
            | cons a as =>
              rw [takeLine]
              by_cases hnl : a = '\n'
              · simp [hnl]
              · simp only [if_neg hnl, List.length_cons]
                have := ihmm as
                omega
      -- chunk has at least one character, so the rest is strictly shorter
        rw [takeLine]
        by_cases hnl : c = '\n'
        · simp only [if_pos hnl]
          simp only [List.length_cons] at hm
          omega
        · simp only [if_neg hnl]
          have := hle 4094 cs
          simp only [List.length_cons] at hm
          omega
      set ch := takeLine 4095 (c :: cs) with hch
      have hr : shapeOk (if p.stdin_beep = .char then char_loop p intr (cstr ch.1) k
          else
            let pb := play_beep p intr k
            ⟨.echo (cstr ch.1) :: pb.trace, pb.k, pb.exited⟩) := by
        by_cases hsb : p.stdin_beep = .char
        · rw [if_pos hsb]
          exact char_loop_shape p intr (cstr ch.1) k
        · rw [if_neg hsb]
          obtain ⟨pbx, pbl⟩ := play_beep_shape p intr k
          constructor
          · intro ht
            simp only at ht
            obtain ⟨pre, t, ms, htr, hpre⟩ := pbx ht
            exact ⟨.echo (cstr ch.1) :: pre, t, ms, by simp [htr],
              livePre_cons (by simp [liveEv]) hpre⟩
          · intro hf
            simp only at hf
            exact livePre_cons (by simp [liveEv]) (pbl hf)
      set r := (if p.stdin_beep = .char then char_loop p intr (cstr ch.1) k
          else
            let pb := play_beep p intr k
            (⟨.echo (cstr ch.1) :: pb.trace, pb.k, pb.exited⟩ : PRes)) with hrdef
      obtain ⟨rx, rl⟩ := hr
      cases hre : r.exited with
      | true =>
        simp only [hre, if_true]
        exact ⟨fun _ => rx hre, fun hf => by simp [hre] at hf ⊢⟩
      | false =>
        simp only [hre, Bool.false_eq_true, if_false]
        obtain ⟨r2x, r2l⟩ := ihm ch.2 r.k hrest
        constructor
        · intro ht
          simp only at ht
          obtain ⟨pre, t, ms, htr, hpre⟩ := r2x ht
          exact ⟨r.trace ++ pre, t, ms, by simp [htr],
            livePre_append (rl hre) hpre⟩
        · intro hf
          simp only at hf
          exact livePre_append (rl hre) (r2l hf)

theorem chain_loop_shape (intr : Nat → Bool) :
    ∀ chain input k, shapeOk (chain_loop intr chain input k) := by
  intro chain
  induction chain with
  | nil =>
    intro input k
    rw [chain_loop]
    exact ⟨fun ht => by simp at ht, fun _ => livePre_nil⟩
  | cons p rest ihc =>
    intro input k
    rw [chain_loop]
    have hr : shapeOk (if p.stdin_beep = .none then play_beep p intr k
        else
          let s := stdin_loop p intr input k
          ⟨.setvbufIn :: .setvbufOut :: s.trace, s.k, s.exited⟩) := by
      by_cases hsb : p.stdin_beep = .none
      · rw [if_pos hsb]
        exact play_beep_shape p intr k
      · rw [if_neg hsb]
        obtain ⟨sx, sl⟩ := stdin_loop_shape p intr input.length input k (le_refl _)
        constructor
        · intro ht
          simp only at ht
          obtain ⟨pre, t, ms, htr, hpre⟩ := sx ht
          exact ⟨.setvbufIn :: .setvbufOut :: pre, t, ms, by simp [htr],
            livePre_cons (by simp [liveEv]) (livePre_cons (by simp [liveEv]) hpre)⟩
        · intro hf
          simp only at hf
          exact livePre_cons (by simp [liveEv]) (livePre_cons (by simp [liveEv]) (sl hf))
    set r := (if p.stdin_beep = .none then play_beep p intr k
        else
          let s := stdin_loop p intr input k
          (⟨.setvbufIn :: .setvbufOut :: s.trace, s.k, s.exited⟩ : PRes)) with hrdef
    obtain ⟨rx, rl⟩ := hr
    cases hre : r.exited with
    | true =>
      simp only [hre, if_true]
      exact ⟨fun _ => rx hre, fun hf => by simp [hre] at hf ⊢⟩
    | false =>
      simp only [hre, Bool.false_eq_true, if_false]
      obtain ⟨r2x, r2l⟩ := ihc (if p.stdin_beep = .none then input else []) r.k
      constructor
      · intro ht
        simp only at ht
        obtain ⟨pre, t, ms, htr, hpre⟩ := r2x ht
        refine ⟨r.trace ++ .free :: pre, t, ms, by simp [htr], ?_⟩
        exact livePre_append (rl hre) (livePre_cons (by simp [liveEv]) hpre)
      · intro hf
        simp only at hf
        exact livePre_append (rl hre) (livePre_cons (by simp [liveEv]) (r2l hf))

theorem count_close_window (t : SleepTag) (ms : Nat) :
    (interruptedWindow t ms).count Ev.close = 1 := by
  simp [interruptedWindow]

theorem count_exitFailure_window (t : SleepTag) (ms : Nat) :
    (interruptedWindow t ms).count Ev.exitFailure = 1 := by
  simp [interruptedWindow]

theorem exitSuccess_not_mem_window (t : SleepTag) (ms : Nat) :
    Ev.exitSuccess ∉ interruptedWindow t ms := by
  simp [interruptedWindow]

/-- **C1.** If the process is interrupted by SIGINT/SIGTERM during any of
the interruptible sleeps of playback (of any repetition of any request in
the chain), then the whole observable behaviour of `main` after a
successful device detection is: a prefix of ordinary events containing
no device close and no exit, followed immediately by the interrupted
sleep's window and the teardown `stop_tone`, `close`,
`exit(EXIT_FAILURE)` — each performed exactly once — and nothing after
it: no further repetitions or chained requests execute, and the process
never reaches the successful-exit path. -/
theorem c1_interrupt_stops_closes_exits (env : Env) (chain : List beep_parms_T)
    (dev : Option String)
    (hdet : env.detectOk = true)
    (hex : (chain_loop env.intr chain env.stdinInput 0).exited = true) :
    ∃ pre t ms,
      main_after_parse env chain dev =
        pre ++ [Ev.sigInstall, Ev.sleep t ms, Ev.stopTone, Ev.close, Ev.exitFailure] ∧
      Ev.close ∉ pre ∧ Ev.exitFailure ∉ pre ∧
      (main_after_parse env chain dev).count Ev.close = 1 ∧
      (main_after_parse env chain dev).count Ev.exitFailure = 1 ∧
      Ev.exitSuccess ∉ main_after_parse env chain dev := by
  obtain ⟨cx, _⟩ := chain_loop_shape env.intr chain env.stdinInput 0
  obtain ⟨pre0, t, ms, htr, hpre0⟩ := cx hex
  have hmp : mainPlay env chain =
      (Ev.openDevice :: pre0) ++ interruptedWindow t ms := by
    rw [mainPlay]
    simp only [hex, if_true, htr]
    simp
  have hmap : main_after_parse env chain dev =
      (Ev.register :: Ev.register :: Ev.openDevice :: pre0) ++ interruptedWindow t ms := by
    rw [main_after_parse.eq_def]
    cases dev with
    | none => simp only [hdet, if_true, hmp]; simp
    | some name => simp only [hdet, if_true, hmp]; simp
  have hlive : livePre (Ev.register :: Ev.register :: Ev.openDevice :: pre0) :=
    livePre_cons (by simp [liveEv]) (livePre_cons (by simp [liveEv])
      (livePre_cons (by simp [liveEv]) hpre0))
  refine ⟨Ev.register :: Ev.register :: Ev.openDevice :: pre0, t, ms, ?_, ?_, ?_, ?_, ?_, ?_⟩
  · rw [hmap, interruptedWindow]
  · exact not_mem_of_livePre (by simp [liveEv]) hlive
  · exact not_mem_of_livePre (by simp [liveEv]) hlive
  · rw [hmap, List.count_append, count_close_window,
      List.count_eq_zero.mpr (not_mem_of_livePre (by simp [liveEv]) hlive)]
  · rw [hmap, List.count_append, count_exitFailure_window,
      List.count_eq_zero.mpr (not_mem_of_livePre (by simp [liveEv]) hlive)]
  · rw [hmap]
    intro hc
    rcases List.mem_append.mp hc with hc | hc
    · exact not_mem_of_livePre (by simp [liveEv]) hlive hc
    · exact exitSuccess_not_mem_window t ms hc

/-- Witness for C1: a one-repetition request whose tone sleep is
interrupted. -/
theorem c1_witness :
    ((⟨0, 0, 0, 0, false, false, false, false, [], false, true, false, [],
        fun _ => true⟩ : Env).detectOk = true) ∧
    ((chain_loop (fun _ => true) [⟨440, 200, 1, 100, false, .none⟩] [] 0).exited = true) ∧
    (∃ pre t ms,
      main_after_parse
          ⟨0, 0, 0, 0, false, false, false, false, [], false, true, false, [],
            fun _ => true⟩
          [⟨440, 200, 1, 100, false, .none⟩] Option.none =
        pre ++ [Ev.sigInstall, Ev.sleep t ms, Ev.stopTone, Ev.close, Ev.exitFailure] ∧
      Ev.close ∉ pre ∧ Ev.exitFailure ∉ pre ∧
      (main_after_parse
          ⟨0, 0, 0, 0, false, false, false, false, [], false, true, false, [],
            fun _ => true⟩
          [⟨440, 200, 1, 100, false, .none⟩] Option.none).count Ev.close = 1 ∧
      (main_after_parse
          ⟨0, 0, 0, 0, false, false, false, false, [], false, true, false, [],
            fun _ => true⟩
          [⟨440, 200, 1, 100, false, .none⟩] Option.none).count Ev.exitFailure = 1 ∧
      Ev.exitSuccess ∉ main_after_parse
          ⟨0, 0, 0, 0, false, false, false, false, [], false, true, false, [],
            fun _ => true⟩
          [⟨440, 200, 1, 100, false, .none⟩] Option.none) :=
  ⟨rfl, by simp [chain_loop, play_beep, play_loop, sleep_ms],
   c1_interrupt_stops_closes_exits _ _ _ rfl
     (by simp [chain_loop, play_beep, play_loop, sleep_ms])⟩

/-!
## Uninterrupted executions: closed forms and counts
-/

theorem chain_loop_noIntr (intr : Nat → Bool) (hI : noIntr intr) :
    ∀ chain (input : List Char) (k : Nat), (∀ p ∈ chain, p.stdin_beep = .none) →
      (chain_loop intr chain input k).trace =
        (chain.map (fun p => normalPlayTrace p ++ [Ev.free])).flatten ∧
      (chain_loop intr chain input k).exited = false := by
  intro chain
  induction chain with
  | nil =>
    intro input k _
    rw [chain_loop]
    simp
  | cons p rest ihc =>
    intro input k hall
    have hsb : p.stdin_beep = .none := hall p (List.mem_cons_self p rest)
    have hrest : ∀ x ∈ rest, x.stdin_beep = .none := fun x hx =>
      hall x (List.mem_cons_of_mem p hx)
    obtain ⟨pbt, pbe⟩ := play_beep_noIntr p intr hI k
    obtain ⟨iht, ihe⟩ := ihc input (play_beep p intr k).k hrest
    rw [chain_loop]
    simp only [hsb, if_true, if_pos rfl, pbe, Bool.false_eq_true, if_false]
    constructor
    · simp only [pbt, iht, List.map_cons, List.flatten_cons]
      simp
    · exact ihe

/-- **C2.** For every request, an uninterrupted `play_beep` calls
`start_tone` and `stop_tone` each exactly `reps` times, strictly
alternating starting with `start_tone` (the tone-event subsequence of
its trace is `reps` copies of `[startTone, stopTone]`); in particular
for `reps = 0` it calls neither, while `main` still opens and closes the
device exactly once. -/
theorem c2_start_stop_alternate (p q : beep_parms_T) (intr : Nat → Bool) (k : Nat)
    (env : Env) (hI : noIntr intr) (hIe : noIntr env.intr)
    (hq0 : q.reps = 0) (hqs : q.stdin_beep = .none) (hdet : env.detectOk = true) :
    (play_beep p intr k).trace.filter isToneEv =
      (List.replicate p.reps [Ev.startTone (p.freq &&& 65535), Ev.stopTone]).flatten ∧
    (main_after_parse env [q] Option.none).count Ev.openDevice = 1 ∧
    (main_after_parse env [q] Option.none).count Ev.close = 1 := by
  refine ⟨?_, ?_⟩
  · rw [(play_beep_noIntr p intr hI k).1, normalPlayTrace, List.filter_cons]
    have h0 : isToneEv Ev.playCall = false := rfl
    rw [h0]
    have := blocksFrom_filter_tone p p.reps 0 (by omega)
    simpa using this
  · obtain ⟨ct, ce⟩ := chain_loop_noIntr env.intr hIe [q] env.stdinInput 0
      (by intro x hx; rw [List.mem_singleton] at hx; subst hx; exact hqs)
    have hblocks : blocksFrom q 0 = [] := by
      rw [blocksFrom]
      simp [hq0]
    have hmp : mainPlay env [q] =
        [Ev.openDevice, Ev.playCall, Ev.free, Ev.stopTone, Ev.close, Ev.exitSuccess] := by
      rw [mainPlay]
      simp only [ct, ce, Bool.false_eq_true, if_false]
      simp [normalPlayTrace, hblocks]
    have hmap : main_after_parse env [q] Option.none =
        [Ev.register, Ev.register, Ev.openDevice, Ev.playCall, Ev.free,
         Ev.stopTone, Ev.close, Ev.exitSuccess] := by
      rw [main_after_parse.eq_def]
      simp only [hdet, if_true, hmp]
      simp
    rw [hmap]
    exact ⟨by decide, by decide⟩

/-- Witness for C2: two repetitions for the alternation part, a
zero-repetition request for the open/close part. -/
theorem c2_witness :
    noIntr (fun _ => false) ∧
    noIntr (testEnv true false [] (fun _ => false)).intr ∧
    (⟨440, 200, 0, 100, false, .none⟩ : beep_parms_T).reps = 0 ∧
    (⟨440, 200, 0, 100, false, .none⟩ : beep_parms_T).stdin_beep = .none ∧
    (testEnv true false [] (fun _ => false)).detectOk = true ∧
    ((play_beep ⟨440, 200, 2, 100, false, .none⟩ (fun _ => false) 0).trace.filter isToneEv =
      (List.replicate (⟨440, 200, 2, 100, false, .none⟩ : beep_parms_T).reps
        [Ev.startTone ((440 : Nat) &&& 65535), Ev.stopTone]).flatten ∧
    (main_after_parse (testEnv true false [] (fun _ => false))
        [⟨440, 200, 0, 100, false, .none⟩] Option.none).count Ev.openDevice = 1 ∧
    (main_after_parse (testEnv true false [] (fun _ => false))
        [⟨440, 200, 0, 100, false, .none⟩] Option.none).count Ev.close = 1) :=
  ⟨fun _ => rfl, fun _ => rfl, rfl, rfl, rfl,
   c2_start_stop_alternate ⟨440, 200, 2, 100, false, .none⟩ ⟨440, 200, 0, 100, false, .none⟩
     (fun _ => false) 0 (testEnv true false [] (fun _ => false))
     (fun _ => rfl) (fun _ => rfl) rfl rfl rfl⟩

/-- **C3.** For an uninterrupted `play_beep` with `reps > 0`, the
inter-repetition delay sleep happens exactly `reps` times when the
end-delay flag is set and exactly `reps - 1` times when it is not; and
when the flag is not set the trace ends with `stop_tone` — no delay
after the last repetition. -/
theorem c3_delay_count (p : beep_parms_T) (intr : Nat → Bool) (k : Nat)
    (hI : noIntr intr) (hpos : 0 < p.reps) :
    (play_beep p intr k).trace.countP isDelaySleep =
      (if p.end_delay then p.reps else p.reps - 1) ∧
    (p.end_delay = false → ∃ t, (play_beep p intr k).trace = t ++ [Ev.stopTone]) := by
  constructor
  · rw [(play_beep_noIntr p intr hI k).1, normalPlayTrace, List.countP_cons]
    have h0 : isDelaySleep Ev.playCall = false := rfl
    rw [h0]
    have := blocksFrom_delay_count p p.reps 0 (by omega)
    simpa using this
  · intro hed
    obtain ⟨t, ht⟩ := blocksFrom_ends_stop p hed p.reps 0 (by omega) hpos
    refine ⟨Ev.playCall :: t, ?_⟩
    rw [(play_beep_noIntr p intr hI k).1, normalPlayTrace, ht]
    simp

/-- Witness for C3: three repetitions without end delay give two delay
sleeps and a trace ending in `stop_tone`. -/
theorem c3_witness :
    noIntr (fun _ => false) ∧ 0 < (⟨440, 50, 3, 20, false, .none⟩ : beep_parms_T).reps ∧
    ((play_beep ⟨440, 50, 3, 20, false, .none⟩ (fun _ => false) 0).trace.countP isDelaySleep =
      (if (⟨440, 50, 3, 20, false, .none⟩ : beep_parms_T).end_delay then 3 else 3 - 1) ∧
    ((⟨440, 50, 3, 20, false, .none⟩ : beep_parms_T).end_delay = false →
      ∃ t, (play_beep ⟨440, 50, 3, 20, false, .none⟩ (fun _ => false) 0).trace =
        t ++ [Ev.stopTone])) :=
  ⟨fun _ => rfl, by decide,
   c3_delay_count ⟨440, 50, 3, 20, false, .none⟩ (fun _ => false) 0 (fun _ => rfl) (by decide)⟩

theorem chainFlat_mem (chain : List beep_parms_T) :
    ∀ x ∈ (chain.map (fun p => normalPlayTrace p ++ [Ev.free])).flatten,
      x = Ev.playCall ∨ x = Ev.free ∨ isPlayEv x = true := by
  intro x hx
  rw [List.mem_flatten] at hx
  obtain ⟨l, hl, hxl⟩ := hx
  rw [List.mem_map] at hl
  obtain ⟨p, _, rfl⟩ := hl
  rcases List.mem_append.mp hxl with hxl | hxl
  · rw [normalPlayTrace] at hxl
    rcases List.mem_cons.mp hxl with rfl | hxl
    · exact Or.inl rfl
    · exact Or.inr (Or.inr (blocksFrom_all_playEv p p.reps 0 (by omega) x hxl))
  · rw [List.mem_singleton] at hxl
    exact Or.inr (Or.inl hxl)

theorem openDevice_not_mem_chainFlat (chain : List beep_parms_T) :
    Ev.openDevice ∉ (chain.map (fun p => normalPlayTrace p ++ [Ev.free])).flatten := by
  intro hc
  rcases chainFlat_mem chain Ev.openDevice hc with hx | hx | hx <;> simp [isPlayEv] at hx

theorem close_not_mem_chainFlat (chain : List beep_parms_T) :
    Ev.close ∉ (chain.map (fun p => normalPlayTrace p ++ [Ev.free])).flatten := by
  intro hc
  rcases chainFlat_mem chain Ev.close hc with hx | hx | hx <;> simp [isPlayEv] at hx

/-- **C6.** For every request chain (with no stdin-triggered request) in
an uninterrupted run, `main` registers the drivers, opens exactly one
device, invokes the playback engine once per request strictly in chain
order with the single handle, frees each request immediately after
playing it, and performs exactly one close at the very end. -/
theorem c6_chain_one_open_one_close (env : Env) (chain : List beep_parms_T)
    (dev : Option String) (hIe : noIntr env.intr)
    (hall : ∀ p ∈ chain, p.stdin_beep = .none) (hdet : env.detectOk = true) :
    main_after_parse env chain dev =
      [Ev.register, Ev.register, Ev.openDevice] ++
        (chain.map (fun p => normalPlayTrace p ++ [Ev.free])).flatten ++
        [Ev.stopTone, Ev.close, Ev.exitSuccess] ∧
    (main_after_parse env chain dev).count Ev.openDevice = 1 ∧
    (main_after_parse env chain dev).count Ev.close = 1 := by
  obtain ⟨ct, ce⟩ := chain_loop_noIntr env.intr hIe chain env.stdinInput 0 hall
  have hmp : mainPlay env chain =
      Ev.openDevice :: ((chain.map (fun p => normalPlayTrace p ++ [Ev.free])).flatten ++
        [Ev.stopTone, Ev.close, Ev.exitSuccess]) := by
    rw [mainPlay]
    simp only [ct, ce, Bool.false_eq_true, if_false]
    simp
  have hmap : main_after_parse env chain dev =
      [Ev.register, Ev.register, Ev.openDevice] ++
        (chain.map (fun p => normalPlayTrace p ++ [Ev.free])).flatten ++
        [Ev.stopTone, Ev.close, Ev.exitSuccess] := by
    rw [main_after_parse.eq_def]
    cases dev with
    | none => simp only [hdet, if_true, hmp]; simp
    | some name => simp only [hdet, if_true, hmp]; simp
  refine ⟨hmap, ?_, ?_⟩
  · rw [hmap, List.append_assoc, List.count_append]
    have h1 : ([Ev.register, Ev.register, Ev.openDevice]).count Ev.openDevice = 1 := by decide
    have h2 : ((chain.map (fun p => normalPlayTrace p ++ [Ev.free])).flatten ++
        [Ev.stopTone, Ev.close, Ev.exitSuccess]).count Ev.openDevice = 0 := by
      rw [List.count_append,
        List.count_eq_zero.mpr (openDevice_not_mem_chainFlat chain)]
      decide
    rw [h1, h2]
  · rw [hmap, List.append_assoc, List.count_append]
    have h1 : ([Ev.register, Ev.register, Ev.openDevice]).count Ev.close = 0 := by decide
    have h2 : ((chain.map (fun p => normalPlayTrace p ++ [Ev.free])).flatten ++
        [Ev.stopTone, Ev.close, Ev.exitSuccess]).count Ev.close = 1 := by
      rw [List.count_append,
        List.count_eq_zero.mpr (close_not_mem_chainFlat chain)]
      decide
    rw [h1, h2]

/-- Witness for C6: a chain of two requests sharing the one handle. -/
theorem c6_witness :
    noIntr (testEnv true false [] (fun _ => false)).intr ∧
    (∀ p ∈ [(⟨440, 200, 1, 100, false, .none⟩ : beep_parms_T),
            ⟨880, 100, 2, 50, true, .none⟩], p.stdin_beep = .none) ∧
    (testEnv true false [] (fun _ => false)).detectOk = true ∧
    (main_after_parse (testEnv true false [] (fun _ => false))
        [⟨440, 200, 1, 100, false, .none⟩, ⟨880, 100, 2, 50, true, .none⟩] Option.none =
      [Ev.register, Ev.register, Ev.openDevice] ++
        ([(⟨440, 200, 1, 100, false, .none⟩ : beep_parms_T),
          ⟨880, 100, 2, 50, true, .none⟩].map
            (fun p => normalPlayTrace p ++ [Ev.free])).flatten ++
        [Ev.stopTone, Ev.close, Ev.exitSuccess] ∧
    (main_after_parse (testEnv true false [] (fun _ => false))
        [⟨440, 200, 1, 100, false, .none⟩, ⟨880, 100, 2, 50, true, .none⟩]
        Option.none).count Ev.openDevice = 1 ∧
    (main_after_parse (testEnv true false [] (fun _ => false))
        [⟨440, 200, 1, 100, false, .none⟩, ⟨880, 100, 2, 50, true, .none⟩]
        Option.none).count Ev.close = 1) :=
  ⟨fun _ => rfl, by decide, rfl,
   c6_chain_one_open_one_close (testEnv true false [] (fun _ => false))
     [⟨440, 200, 1, 100, false, .none⟩, ⟨880, 100, 2, 50, true, .none⟩] Option.none
     (fun _ => rfl) (by decide) rfl⟩

/-!
## Stdin-triggered modes
-/

theorem takeLine_append : ∀ n (l : List Char), (takeLine n l).1 ++ (takeLine n l).2 = l := by
  intro n
  induction n with
  | zero => intro l; cases l <;> simp [takeLine]
  | succ m ihm =>
    intro l
    cases l with
    | nil => simp [takeLine]
    | cons a as =>
      rw [takeLine]
      by_cases hnl : a = '\n'
      · simp [hnl]
      · simp only [if_neg hnl]
        simpa using ihm as

theorem breakLine_append : ∀ l : List Char, (breakLine l).1 ++ (breakLine l).2 = l := by
  intro l
  induction l with
  | nil => simp [breakLine]
  | cons a as iha =>
    rw [breakLine]
    by_cases hnl : a = '\n'
    · simp [hnl]
    · simp only [if_neg hnl]
      simpa using iha

theorem takeLine_eq_breakLine :
    ∀ (l : List Char) n, (breakLine l).1.length ≤ n → takeLine n l = breakLine l := by
  intro l
  induction l with
  | nil => intro n _; cases n <;> simp [takeLine, breakLine]
  | cons a as iha =>
    intro n hn
    rw [breakLine] at hn ⊢
    by_cases hnl : a = '\n'
    · rw [if_pos hnl] at hn ⊢
      cases n with
      | zero => simp at hn
      | succ m => rw [takeLine, if_pos hnl]
    · rw [if_neg hnl] at hn ⊢
      cases n with
      | zero => simp at hn
      | succ m =>
        rw [takeLine, if_neg hnl]
        have : (breakLine as).1.length ≤ m := by
          simp only [List.length_cons] at hn
          omega
        rw [iha m this]

theorem cstr_eq_self {l : List Char} (h : ∀ c ∈ l, c ≠ nulChar) : cstr l = l := by
  induction l with
  | nil => rfl
  | cons a as iha =>
    have ha : a ≠ nulChar := h a (List.mem_cons_self a as)
    have iha2 := iha (fun c hc => h c (List.mem_cons_of_mem a hc))
    rw [cstr] at iha2 ⊢
    rw [List.takeWhile_cons]
    simp [ha, iha2]
    intro x hx
    exact h x (List.mem_cons_of_mem a hx)

theorem char_loop_noIntr (p : beep_parms_T) (intr : Nat → Bool) (hI : noIntr intr) :
    ∀ cs k, (char_loop p intr cs k).trace =
        (cs.map (fun ch => Ev.echo [ch] :: Ev.flush :: normalPlayTrace p)).flatten ∧
      (char_loop p intr cs k).exited = false := by
  intro cs
  induction cs with
  | nil =>
    intro k
    rw [char_loop]
    simp
  | cons ch cs ihc =>
    intro k
    obtain ⟨pbt, pbe⟩ := play_beep_noIntr p intr hI k
    obtain ⟨iht, ihe⟩ := ihc (play_beep p intr k).k
    simp only [char_loop, pbe, Bool.false_eq_true, if_false]
    constructor
    · simp only [pbt, iht, List.map_cons, List.flatten_cons]
      simp
    · exact ihe

theorem stdin_loop_char_noIntr (p : beep_parms_T) (intr : Nat → Bool) (hI : noIntr intr)
    (hsb : p.stdin_beep = .char) :
    ∀ m (input : List Char) k, input.length ≤ m → (∀ c ∈ input, c ≠ nulChar) →
      (stdin_loop p intr input k).trace =
        (input.map (fun ch => Ev.echo [ch] :: Ev.flush :: normalPlayTrace p)).flatten ∧
      (stdin_loop p intr input k).exited = false := by
  intro m
  induction m with
  | zero =>
    intro input k hm _
    have : input = [] := List.length_eq_zero.mp (Nat.le_zero.mp hm)
    subst this
    rw [stdin_loop]
    simp
  | succ m ihm =>
    intro input k hm hnul
    cases input with
    | nil =>
      rw [stdin_loop]
      simp
    | cons c cs =>
      have hsplit := takeLine_append 4095 (c :: cs)
      have hnul1 : ∀ x ∈ (takeLine 4095 (c :: cs)).1, x ≠ nulChar := by
        intro x hx
        refine hnul x ?_
        rw [← hsplit]
        exact List.mem_append.mpr (Or.inl hx)
      have hnul2 : ∀ x ∈ (takeLine 4095 (c :: cs)).2, x ≠ nulChar := by
        intro x hx
        refine hnul x ?_
        rw [← hsplit]
        exact List.mem_append.mpr (Or.inr hx)
      have hlen2 : (takeLine 4095 (c :: cs)).2.length ≤ m := by
        have h1 : (takeLine 4095 (c :: cs)).1.length +
            (takeLine 4095 (c :: cs)).2.length = (c :: cs).length := by
          rw [← List.length_append, hsplit]
        have h2 : 0 < (takeLine 4095 (c :: cs)).1.length := by
          rw [takeLine]
          by_cases hnl : c = '\n'
          · simp [hnl]
          · simp [hnl]
        simp only [List.length_cons] at h1 hm
        omega
      obtain ⟨clt, cle⟩ := char_loop_noIntr p intr hI (cstr (takeLine 4095 (c :: cs)).1) k
      obtain ⟨iht, ihe⟩ := ihm (takeLine 4095 (c :: cs)).2
        (char_loop p intr (cstr (takeLine 4095 (c :: cs)).1) k).k hlen2 hnul2
      rw [stdin_loop]
      simp only [hsb, eq_self_iff_true, if_true, ite_true, cle, Bool.false_eq_true, if_false,
        ite_false]
      refine ⟨?_, ihe⟩
      rw [clt, iht, cstr_eq_self hnul1, ← List.flatten_append, ← List.map_append, hsplit]

theorem stdin_loop_line_noIntr (p : beep_parms_T) (intr : Nat → Bool) (hI : noIntr intr)
    (hsb : p.stdin_beep = .line) :
    ∀ m (input : List Char) k, input.length ≤ m → (∀ c ∈ input, c ≠ nulChar) →
      (∀ l ∈ lineSplit input, l.length ≤ 4095) →
      (stdin_loop p intr input k).trace =
        ((lineSplit input).map (fun l => Ev.echo l :: normalPlayTrace p)).flatten ∧
      (stdin_loop p intr input k).exited = false := by
  intro m
  induction m with
  | zero =>
    intro input k hm _ _
    have : input = [] := List.length_eq_zero.mp (Nat.le_zero.mp hm)
    subst this
    rw [stdin_loop, lineSplit]
    simp
  | succ m ihm =>
    intro input k hm hnul hfit
    cases input with
    | nil =>
      rw [stdin_loop, lineSplit]
      simp
    | cons c cs =>
      have hls : lineSplit (c :: cs) =
          (breakLine (c :: cs)).1 :: lineSplit (breakLine (c :: cs)).2 := by
        rw [lineSplit]
      have hfit1 : (breakLine (c :: cs)).1.length ≤ 4095 := by
        refine hfit _ ?_
        rw [hls]
        exact List.mem_cons_self _ _
      have htb : takeLine 4095 (c :: cs) = breakLine (c :: cs) :=
        takeLine_eq_breakLine (c :: cs) 4095 hfit1
      have hsplit := breakLine_append (c :: cs)
      have hnul1 : ∀ x ∈ (breakLine (c :: cs)).1, x ≠ nulChar := by
        intro x hx
        refine hnul x ?_
        rw [← hsplit]
        exact List.mem_append.mpr (Or.inl hx)
      have hnul2 : ∀ x ∈ (breakLine (c :: cs)).2, x ≠ nulChar := by
        intro x hx
        refine hnul x ?_
        rw [← hsplit]
        exact List.mem_append.mpr (Or.inr hx)
      have hfit2 : ∀ l ∈ lineSplit (breakLine (c :: cs)).2, l.length ≤ 4095 := by
        intro l hl
        refine hfit l ?_
        rw [hls]
        exact List.mem_cons_of_mem _ hl
      have hlen2 : (breakLine (c :: cs)).2.length ≤ m := by
        have h1 : (breakLine (c :: cs)).1.length +
            (breakLine (c :: cs)).2.length = (c :: cs).length := by
          rw [← List.length_append, hsplit]
        have h2 : 0 < (breakLine (c :: cs)).1.length := by
          rw [breakLine]
          by_cases hnl : c = '\n'
          · simp [hnl]
          · simp [hnl]
        simp only [List.length_cons] at h1 hm
        omega
      have hsbne : ¬(p.stdin_beep = .char) := by
        rw [hsb]
        intro hcon
        exact absurd hcon (by decide)
      obtain ⟨pbt, pbe⟩ := play_beep_noIntr p intr hI k
      obtain ⟨iht, ihe⟩ := ihm (breakLine (c :: cs)).2 (play_beep p intr k).k hlen2 hnul2 hfit2
      rw [stdin_loop]
      simp only [htb, hsbne, if_false, ite_false, pbe, Bool.false_eq_true]
      refine ⟨?_, ihe⟩
      rw [pbt, iht, cstr_eq_self hnul1, hls]
      simp

theorem count_playCall_normalPlayTrace (p : beep_parms_T) :
    (normalPlayTrace p).count Ev.playCall = 1 := by
  rw [normalPlayTrace, List.count_cons]
  have h0 : Ev.playCall ∉ blocksFrom p 0 := by
    intro hc
    have := blocksFrom_all_playEv p p.reps 0 (by omega) Ev.playCall hc
    simp [isPlayEv] at this
  rw [List.count_eq_zero.mpr h0]
  simp

theorem count_playCall_lineFlat (p : beep_parms_T) :
    ∀ lines : List (List Char),
      ((lines.map (fun l => Ev.echo l :: normalPlayTrace p)).flatten).count Ev.playCall =
        lines.length := by
  intro lines
  induction lines with
  | nil => simp
  | cons l ls ihl =>
    simp only [List.map_cons, List.flatten_cons, List.count_append, ihl, List.count_cons]
    rw [count_playCall_normalPlayTrace]
    simp only [List.length_cons, beq_iff_eq]
    simp
    omega

theorem count_playCall_charFlat (p : beep_parms_T) :
    ∀ cs : List Char,
      ((cs.map (fun ch => Ev.echo [ch] :: Ev.flush :: normalPlayTrace p)).flatten).count
          Ev.playCall = cs.length := by
  intro cs
  induction cs with
  | nil => simp
  | cons ch cs ihc =>
    simp only [List.map_cons, List.flatten_cons, List.count_append, ihc, List.count_cons]
    rw [count_playCall_normalPlayTrace]
    simp only [List.length_cons, beq_iff_eq]
    simp
    omega

theorem chain_loop_stdinMode (intr : Nat → Bool) (p : beep_parms_T)
    (input : List Char) (k : Nat) (hne : ¬(p.stdin_beep = .none))
    (hex : (stdin_loop p intr input k).exited = false) :
    (chain_loop intr [p] input k).trace =
      Ev.setvbufIn :: Ev.setvbufOut :: ((stdin_loop p intr input k).trace ++ [Ev.free]) := by
  rw [chain_loop]
  simp only [hne, if_false, ite_false, hex, Bool.false_eq_true]
  rw [chain_loop]
  simp

/-- **C7 (amended).** For input containing no NUL byte and whose lines
all fit in the 4095-byte `fgets` buffer, stdin-triggered mode first
disables stdin and stdout buffering, then consumes the input to end of
stream; in per-line mode each line is echoed and then `play_beep` is
invoked exactly once with the same request, and in per-character mode
each character is echoed, stdout flushed, and `play_beep` invoked
exactly once with the same request. -/
theorem c7_stdin_echo_play (pL pC : beep_parms_T) (intr : Nat → Bool)
    (input : List Char) (k : Nat)
    (hI : noIntr intr)
    (hnul : ∀ c ∈ input, c ≠ nulChar)
    (hfit : ∀ l ∈ lineSplit input, l.length ≤ 4095)
    (hL : pL.stdin_beep = .line) (hC : pC.stdin_beep = .char) :
    (stdin_loop pL intr input k).trace =
      ((lineSplit input).map (fun l => Ev.echo l :: normalPlayTrace pL)).flatten ∧
    (stdin_loop pC intr input k).trace =
      (input.map (fun ch => Ev.echo [ch] :: Ev.flush :: normalPlayTrace pC)).flatten ∧
    (stdin_loop pL intr input k).trace.count Ev.playCall = (lineSplit input).length ∧
    (stdin_loop pC intr input k).trace.count Ev.playCall = input.length ∧
    (chain_loop intr [pL] input k).trace =
      Ev.setvbufIn :: Ev.setvbufOut :: ((stdin_loop pL intr input k).trace ++ [Ev.free]) ∧
    (chain_loop intr [pC] input k).trace =
      Ev.setvbufIn :: Ev.setvbufOut :: ((stdin_loop pC intr input k).trace ++ [Ev.free]) := by
  obtain ⟨hlt, hle⟩ := stdin_loop_line_noIntr pL intr hI hL input.length input k
    (le_refl _) hnul hfit
  obtain ⟨hct, hce⟩ := stdin_loop_char_noIntr pC intr hI hC input.length input k
    (le_refl _) hnul
  refine ⟨hlt, hct, ?_, ?_, ?_, ?_⟩
  · rw [hlt]
    exact count_playCall_lineFlat pL (lineSplit input)
  · rw [hct]
    exact count_playCall_charFlat pC input
  · exact chain_loop_stdinMode intr pL input k (by rw [hL]; intro hc; exact absurd hc (by decide))
      hle
  · exact chain_loop_stdinMode intr pC input k (by rw [hC]; intro hc; exact absurd hc (by decide))
      hce

/-- Witness for C7 (amended): line and char mode on the input "hi\n". -/
theorem c7_witness :
    noIntr (fun _ => false) ∧
    (∀ c ∈ ['h', 'i', '\n'], c ≠ nulChar) ∧
    (∀ l ∈ lineSplit ['h', 'i', '\n'], l.length ≤ 4095) ∧
    (⟨440, 200, 1, 100, false, .line⟩ : beep_parms_T).stdin_beep = .line ∧
    (⟨440, 200, 1, 100, false, .char⟩ : beep_parms_T).stdin_beep = .char ∧
    ((stdin_loop ⟨440, 200, 1, 100, false, .line⟩ (fun _ => false) ['h', 'i', '\n'] 0).trace =
      ((lineSplit ['h', 'i', '\n']).map
        (fun l => Ev.echo l :: normalPlayTrace ⟨440, 200, 1, 100, false, .line⟩)).flatten ∧
    (stdin_loop ⟨440, 200, 1, 100, false, .char⟩ (fun _ => false) ['h', 'i', '\n'] 0).trace =
      (['h', 'i', '\n'].map
        (fun ch => Ev.echo [ch] :: Ev.flush ::
          normalPlayTrace ⟨440, 200, 1, 100, false, .char⟩)).flatten ∧
    (stdin_loop ⟨440, 200, 1, 100, false, .line⟩ (fun _ => false)
        ['h', 'i', '\n'] 0).trace.count Ev.playCall = (lineSplit ['h', 'i', '\n']).length ∧
    (stdin_loop ⟨440, 200, 1, 100, false, .char⟩ (fun _ => false)
        ['h', 'i', '\n'] 0).trace.count Ev.playCall = ['h', 'i', '\n'].length ∧
    (chain_loop (fun _ => false) [⟨440, 200, 1, 100, false, .line⟩] ['h', 'i', '\n'] 0).trace =
      Ev.setvbufIn :: Ev.setvbufOut ::
        ((stdin_loop ⟨440, 200, 1, 100, false, .line⟩ (fun _ => false)
          ['h', 'i', '\n'] 0).trace ++ [Ev.free]) ∧
    (chain_loop (fun _ => false) [⟨440, 200, 1, 100, false, .char⟩] ['h', 'i', '\n'] 0).trace =
      Ev.setvbufIn :: Ev.setvbufOut ::
        ((stdin_loop ⟨440, 200, 1, 100, false, .char⟩ (fun _ => false)
          ['h', 'i', '\n'] 0).trace ++ [Ev.free])) :=
  ⟨fun _ => rfl, by decide, by simp [lineSplit, breakLine],
   rfl, rfl,
   c7_stdin_echo_play ⟨440, 200, 1, 100, false, .line⟩ ⟨440, 200, 1, 100, false, .char⟩
     (fun _ => false) ['h', 'i', '\n'] 0 (fun _ => rfl) (by decide)
     (by simp [lineSplit, breakLine]) rfl rfl⟩

/-- Counterexample to C7 as stated: in per-character mode a NUL byte
read from stdin is a unit of input, but it is neither echoed nor does it
trigger a `play_beep` invocation — the stdin-mode trace is empty even
though one character was read and consumed. -/
theorem c7_counterexample :
    ([nulChar].length = 1) ∧
    (stdin_loop ⟨440, 200, 1, 100, false, .char⟩ (fun _ => false) [nulChar] 0).trace = [] ∧
    (stdin_loop ⟨440, 200, 1, 100, false, .char⟩ (fun _ => false)
      [nulChar] 0).trace.count Ev.playCall = 0 := by
  have h1 : takeLine 4095 [nulChar] = ([nulChar], []) := by decide
  have h2 : cstr [nulChar] = [] := by decide
  have ht : (stdin_loop ⟨440, 200, 1, 100, false, .char⟩ (fun _ => false)
      [nulChar] 0).trace = [] := by
    rw [stdin_loop]
    simp [h1, h2, char_loop, stdin_loop]
  exact ⟨rfl, ht, by rw [ht]; rfl⟩

/-!
## Frequency parsing and the 16-bit mask
-/

/-- Counterexample to C4 as stated: the frequency argument `0` is within
`[0, 20000]` and accepted at the command line, but because a stored
frequency of 0 is the parser's "not given" sentinel, the final default
(beep-main.c lines 283-285) replaces it by DEFAULT_FREQ, and the value
delivered to `start_tone` is 440, not `round(0) & 0xFFFF = 0`. -/
theorem c4_counterexample :
    parse_command_line [.f (some 0)] false =
      .ok [⟨440, 200, 1, 100, false, .none⟩] Option.none ∧
    deliveredFreqs (play_beep ⟨440, 200, 1, 100, false, .none⟩ (fun _ => false) 0).trace =
      [440] ∧
    ((round (0 : ℚ)).toNat &&& 65535) = 0 ∧ (440 : Nat) ≠ 0 := by
  refine ⟨?_, ?_, by simp, by decide⟩
  · have h1 : parse_step ⟨[], defaultParms, Option.none⟩ (.f (some 0)) =
        .ok ⟨[], { defaultParms with freq := (⌊(0 : ℚ) + 1/2⌋).toNat }, Option.none⟩ := by
      rw [parse_step, if_pos (by norm_num)]
    have h0 : (⌊(0 : ℚ) + 1/2⌋) = 0 := by
      rw [Int.floor_eq_zero_iff]
      simp only [Set.mem_Ico]
      norm_num
    have h2 : (⌊(0 : ℚ) + 1/2⌋).toNat = 0 := by
      rw [h0]
      rfl
    rw [parse_command_line, parse_loop, h1]
    simp only [h2]
    rw [parse_loop]
    simp [defaultFreq, defaultParms]
  · have h := play_beep_noIntr ⟨440, 200, 1, 100, false, .none⟩ (fun _ => false)
      (fun _ => rfl) 0
    rw [h.1, normalPlayTrace]
    have hb := blocksFrom_delivered ⟨440, 200, 1, 100, false, .none⟩ 1 0 (by decide)
    simp [deliveredFreqs, toneValue] at hb ⊢
    exact hb

/-- **C4 (amended).** For every frequency argument `f` in `[0, 20000]`
whose rounded value is nonzero, the parser stores `round(f)` (rounding
half up at parse time, `(int)(f + 0.5f)`), and the value delivered to
`start_tone` is `round(f) & 0xFFFF`, the 16-bit mask being applied at
the call into the driver.  (When `round(f) = 0` the stored value
collides with the "frequency not given" sentinel and the default 440 Hz
is delivered instead — see the counterexample.) -/
theorem c4_freq_round_mask (q : ℚ) (intr : Nat → Bool) (k : Nat)
    (h0 : 0 ≤ q) (h2 : q ≤ 20000) (hnz : round q ≠ 0) (hI : noIntr intr) :
    parse_command_line [.f (some q)] false =
      .ok [{ defaultParms with freq := (round q).toNat }] Option.none ∧
    deliveredFreqs
        (play_beep { defaultParms with freq := (round q).toNat } intr k).trace =
      [(round q).toNat &&& 65535] := by
  constructor
  · have h1 : parse_step ⟨[], defaultParms, Option.none⟩ (.f (some q)) =
        .ok ⟨[], { defaultParms with freq := (⌊q + 1/2⌋).toNat }, Option.none⟩ := by
      rw [parse_step, if_pos ⟨h0, h2⟩]
    have hv : (⌊q + 1/2⌋).toNat = (round q).toNat := by rw [round_eq]
    have hr0 : (0 : ℤ) ≤ round q := by
      rw [round_eq]
      refine Int.floor_nonneg.mpr (by linarith)
    have hvne : ¬((round q).toNat = 0) := by
      intro hc
      exact hnz (by omega)
    rw [parse_command_line, parse_loop, h1]
    simp only [hv]
    rw [parse_loop]
    simp [defaultFreq, hvne, defaultParms]
  · have h := play_beep_noIntr { defaultParms with freq := (round q).toNat } intr hI k
    rw [h.1, normalPlayTrace]
    have hb := blocksFrom_delivered { defaultParms with freq := (round q).toNat } 1 0
      (by simp [defaultParms])
    simp [deliveredFreqs, toneValue] at hb ⊢
    exact hb

/-- Witness for C4 (amended): the frequency argument 440. -/
theorem c4_witness :
    (0 : ℚ) ≤ 440 ∧ (440 : ℚ) ≤ 20000 ∧ round (440 : ℚ) ≠ 0 ∧ noIntr (fun _ => false) ∧
    (parse_command_line [.f (some 440)] false =
      .ok [{ defaultParms with freq := (round (440 : ℚ)).toNat }] Option.none ∧
    deliveredFreqs
        (play_beep { defaultParms with freq := (round (440 : ℚ)).toNat }
          (fun _ => false) 0).trace =
      [(round (440 : ℚ)).toNat &&& 65535]) :=
  ⟨by norm_num, by norm_num, by norm_num, fun _ => rfl,
   c4_freq_round_mask 440 (fun _ => false) 0 (by norm_num) (by norm_num) (by norm_num)
     (fun _ => rfl)⟩

/-!
## Device-open failure, privilege guards, numeric option bounds
-/

/-- **C8.** When no driver can be opened: with an explicit device path,
`main` prints an informative error naming the path and exits with
failure, attempting no bell fallback; with no explicit path, it prints
an error and emits exactly one terminal-bell character if and only if
stdout is an interactive terminal, then exits with failure. -/
theorem c8_open_failure_fallback (env : Env) (chain : List beep_parms_T)
    (name : String) (hdet : env.detectOk = false) :
    (main_after_parse env chain (some name) =
      [Ev.register, Ev.register,
       Ev.errMsg ("Could not open " ++ name ++ " for writing"), Ev.exitFailure] ∧
     Ev.bell ∉ main_after_parse env chain (some name) ∧
     (main_after_parse env chain (some name)).getLast? = some Ev.exitFailure) ∧
    (main_after_parse env chain Option.none =
      [Ev.register, Ev.register, Ev.errMsg "Could not open any device"] ++
        (if env.stdoutTTY then [Ev.bell] else []) ++ [Ev.exitFailure] ∧
     (Ev.bell ∈ main_after_parse env chain Option.none ↔ env.stdoutTTY = true) ∧
     (main_after_parse env chain Option.none).count Ev.bell =
        (if env.stdoutTTY then 1 else 0) ∧
     (main_after_parse env chain Option.none).getLast? = some Ev.exitFailure) := by
  have hs : main_after_parse env chain (some name) =
      [Ev.register, Ev.register,
       Ev.errMsg ("Could not open " ++ name ++ " for writing"), Ev.exitFailure] := by
    rw [main_after_parse.eq_def]
    simp [hdet]
  have hn : main_after_parse env chain Option.none =
      [Ev.register, Ev.register, Ev.errMsg "Could not open any device"] ++
        (if env.stdoutTTY then [Ev.bell] else []) ++ [Ev.exitFailure] := by
    rw [main_after_parse.eq_def]
    simp [hdet]
  refine ⟨⟨hs, ?_, ?_⟩, hn, ?_, ?_, ?_⟩
  · rw [hs]
    simp
  · rw [hs]
    rfl
  · rw [hn]
    cases htty : env.stdoutTTY <;> simp
  · rw [hn]
    cases htty : env.stdoutTTY <;> simp
  · rw [hn]
    cases htty : env.stdoutTTY <;> simp

/-- Witness for C8: detection fails, stdout is a tty. -/
theorem c8_witness :
    (testEnv false true [] (fun _ => false)).detectOk = false ∧
    ((main_after_parse (testEnv false true [] (fun _ => false)) [] (some "/dev/x") =
      [Ev.register, Ev.register,
       Ev.errMsg ("Could not open " ++ "/dev/x" ++ " for writing"), Ev.exitFailure] ∧
     Ev.bell ∉ main_after_parse (testEnv false true [] (fun _ => false)) [] (some "/dev/x") ∧
     (main_after_parse (testEnv false true [] (fun _ => false)) []
        (some "/dev/x")).getLast? = some Ev.exitFailure) ∧
    (main_after_parse (testEnv false true [] (fun _ => false)) [] Option.none =
      [Ev.register, Ev.register, Ev.errMsg "Could not open any device"] ++
        (if (testEnv false true [] (fun _ => false)).stdoutTTY then [Ev.bell] else []) ++
        [Ev.exitFailure] ∧
     (Ev.bell ∈ main_after_parse (testEnv false true [] (fun _ => false)) [] Option.none ↔
        (testEnv false true [] (fun _ => false)).stdoutTTY = true) ∧
     (main_after_parse (testEnv false true [] (fun _ => false)) [] Option.none).count Ev.bell =
        (if (testEnv false true [] (fun _ => false)).stdoutTTY then 1 else 0) ∧
     (main_after_parse (testEnv false true [] (fun _ => false)) []
        Option.none).getLast? = some Ev.exitFailure)) :=
  ⟨rfl, c8_open_failure_fallback (testEnv false true [] (fun _ => false)) [] "/dev/x" rfl⟩

/-- **C9.** If the real and effective user ids differ, or the real and
effective group ids differ, or any of the SUDO_COMMAND / SUDO_USER /
SUDO_UID / SUDO_GID environment variables is set, `main` prints two
error messages and exits with failure before registering any driver,
opening any device, or starting any tone. -/
theorem c9_setuid_sudo_guard (env : Env)
    (h : env.uid ≠ env.euid ∨ env.gid ≠ env.egid ∨ env.sudoCommand = true ∨
         env.sudoUser = true ∨ env.sudoUid = true ∨ env.sudoGid = true) :
    (∃ m1 m2, main_run env = [Ev.errMsg m1, Ev.errMsg m2, Ev.exitFailure]) ∧
    Ev.register ∉ main_run env ∧ Ev.openDevice ∉ main_run env ∧
    (∀ v, Ev.startTone v ∉ main_run env) ∧
    (main_run env).getLast? = some Ev.exitFailure := by
  by_cases h1 : env.uid ≠ env.euid ∨ env.gid ≠ env.egid
  · have hm : main_run env =
        [Ev.errMsg "Running setuid or setgid, which is not supported for security reasons.",
         Ev.errMsg "Set up permissions for the pcspkr evdev device file instead.",
         Ev.exitFailure] := by
      rw [main_run, if_pos h1]
    rw [hm]
    exact ⟨⟨_, _, rfl⟩, by simp, by simp, by simp, rfl⟩
  · have hor : (env.sudoCommand || env.sudoUser || env.sudoUid || env.sudoGid) = true := by
      push_neg at h1
      rcases h with hc | hc | hc | hc | hc | hc
      · exact absurd h1.1 hc
      · exact absurd h1.2 hc
      all_goals simp [hc]
    have hm : main_run env =
        [Ev.errMsg "Running under sudo, which is not supported for security reasons.",
         Ev.errMsg "Set up permissions for the pcspkr evdev device file instead.",
         Ev.exitFailure] := by
      rw [main_run, if_neg h1, if_pos hor]
    rw [hm]
    exact ⟨⟨_, _, rfl⟩, by simp, by simp, by simp, rfl⟩

/-- Witness for C9: SUDO_COMMAND is set. -/
theorem c9_witness :
    ((⟨0, 0, 0, 0, true, false, false, false, [], false, true, false, [],
        fun _ => false⟩ : Env).uid ≠
        (⟨0, 0, 0, 0, true, false, false, false, [], false, true, false, [],
          fun _ => false⟩ : Env).euid ∨
      (⟨0, 0, 0, 0, true, false, false, false, [], false, true, false, [],
        fun _ => false⟩ : Env).gid ≠
        (⟨0, 0, 0, 0, true, false, false, false, [], false, true, false, [],
          fun _ => false⟩ : Env).egid ∨
      (⟨0, 0, 0, 0, true, false, false, false, [], false, true, false, [],
        fun _ => false⟩ : Env).sudoCommand = true ∨
      (⟨0, 0, 0, 0, true, false, false, false, [], false, true, false, [],
        fun _ => false⟩ : Env).sudoUser = true ∨
      (⟨0, 0, 0, 0, true, false, false, false, [], false, true, false, [],
        fun _ => false⟩ : Env).sudoUid = true ∨
      (⟨0, 0, 0, 0, true, false, false, false, [], false, true, false, [],
        fun _ => false⟩ : Env).sudoGid = true) ∧
    ((∃ m1 m2,
        main_run ⟨0, 0, 0, 0, true, false, false, false, [], false, true, false, [],
          fun _ => false⟩ = [Ev.errMsg m1, Ev.errMsg m2, Ev.exitFailure]) ∧
     Ev.register ∉ main_run ⟨0, 0, 0, 0, true, false, false, false, [], false, true, false, [],
        fun _ => false⟩ ∧
     Ev.openDevice ∉ main_run ⟨0, 0, 0, 0, true, false, false, false, [], false, true, false,
        [], fun _ => false⟩ ∧
     (∀ v, Ev.startTone v ∉ main_run ⟨0, 0, 0, 0, true, false, false, false, [], false, true,
        false, [], fun _ => false⟩) ∧
     (main_run ⟨0, 0, 0, 0, true, false, false, false, [], false, true, false, [],
        fun _ => false⟩).getLast? = some Ev.exitFailure) :=
  ⟨Or.inr (Or.inr (Or.inl rfl)),
   c9_setuid_sudo_guard _ (Or.inr (Or.inr (Or.inl rfl)))⟩

/-- **C10.** For each of the `-l` (tone length), `-r` (repetition
count), `-d` and `-D` (delay) options: an argument that `sscanf` cannot
parse as an unsigned integer, or whose value exceeds 300000, makes the
program print the usage text and exit with failure — without opening any
device or starting any tone; a value in `[0, 300000]` is accepted and
stored in the corresponding field. -/
theorem c10_numeric_option_bounds (v w : Nat) (env : Env)
    (hv : v ≤ 300000)
    (h1 : env.uid = env.euid) (h2 : env.gid = env.egid)
    (h3 : env.sudoCommand = false) (h4 : env.sudoUser = false)
    (h5 : env.sudoUid = false) (h6 : env.sudoGid = false)
    (hp : parse_command_line env.opts env.hasNonOptArgs = .bail) :
    parse_command_line [.l Option.none] false = .bail ∧
    parse_command_line [.r Option.none] false = .bail ∧
    parse_command_line [.d Option.none] false = .bail ∧
    parse_command_line [.D Option.none] false = .bail ∧
    parse_command_line [.l (some (300001 + w))] false = .bail ∧
    parse_command_line [.r (some (300001 + w))] false = .bail ∧
    parse_command_line [.d (some (300001 + w))] false = .bail ∧
    parse_command_line [.D (some (300001 + w))] false = .bail ∧
    parse_command_line [.l (some v)] false =
      .ok [⟨440, v, 1, 100, false, .none⟩] Option.none ∧
    parse_command_line [.r (some v)] false =
      .ok [⟨440, 200, v, 100, false, .none⟩] Option.none ∧
    parse_command_line [.d (some v)] false =
      .ok [⟨440, 200, 1, v, false, .none⟩] Option.none ∧
    parse_command_line [.D (some v)] false =
      .ok [⟨440, 200, 1, v, true, .none⟩] Option.none ∧
    main_run env = [Ev.usage, Ev.exitFailure] ∧
    Ev.openDevice ∉ main_run env ∧ (∀ fv, Ev.startTone fv ∉ main_run env) := by
  have hgt : 300001 + w > 300000 := by omega
  have hle : ¬(v > 300000) := by omega
  have hmain : main_run env = [Ev.usage, Ev.exitFailure] := by
    rw [main_run, if_neg (by simp [h1, h2]), if_neg (by simp [h3, h4, h5, h6]), hp]
  refine ⟨rfl, rfl, rfl, rfl, ?_, ?_, ?_, ?_, ?_, ?_, ?_, ?_, hmain, ?_, ?_⟩
  · rw [parse_command_line, parse_loop, parse_step, if_pos hgt]
  · rw [parse_command_line, parse_loop, parse_step, if_pos hgt]
  · rw [parse_command_line, parse_loop, parse_step, if_pos hgt]
  · rw [parse_command_line, parse_loop, parse_step, if_pos hgt]
  · have hstep : parse_step ⟨[], defaultParms, Option.none⟩ (.l (some v)) =
        .ok ⟨[], { defaultParms with length := v }, Option.none⟩ := by
      rw [parse_step, if_neg hle]
    rw [parse_command_line, parse_loop]
    simp only [hstep]
    rw [parse_loop]
    simp [defaultFreq, defaultParms]
  · have hstep : parse_step ⟨[], defaultParms, Option.none⟩ (.r (some v)) =
        .ok ⟨[], { defaultParms with reps := v }, Option.none⟩ := by
      rw [parse_step, if_neg hle]
    rw [parse_command_line, parse_loop]
    simp only [hstep]
    rw [parse_loop]
    simp [defaultFreq, defaultParms]
  · have hstep : parse_step ⟨[], defaultParms, Option.none⟩ (.d (some v)) =
        .ok ⟨[], { defaultParms with delay := v, end_delay := false }, Option.none⟩ := by
      rw [parse_step, if_neg hle]
    rw [parse_command_line, parse_loop]
    simp only [hstep]
    rw [parse_loop]
    simp [defaultFreq, defaultParms]
  · have hstep : parse_step ⟨[], defaultParms, Option.none⟩ (.D (some v)) =
        .ok ⟨[], { defaultParms with delay := v, end_delay := true }, Option.none⟩ := by
      rw [parse_step, if_neg hle]
    rw [parse_command_line, parse_loop]
    simp only [hstep]
    rw [parse_loop]
    simp [defaultFreq, defaultParms]
  · rw [hmain]
    simp
  · rw [hmain]
    simp

/-- Witness for C10: value 5 accepted; an unparsable `-l` argument
bails the whole run. -/
theorem c10_witness :
    (5 : Nat) ≤ 300000 ∧
    (testEnv true false [] (fun _ => false)).uid =
      (testEnv true false [] (fun _ => false)).euid ∧
    parse_command_line (⟨0, 0, 0, 0, false, false, false, false, [.l Option.none], false,
        true, false, [], fun _ => false⟩ : Env).opts
      (⟨0, 0, 0, 0, false, false, false, false, [.l Option.none], false,
        true, false, [], fun _ => false⟩ : Env).hasNonOptArgs = .bail ∧
    (parse_command_line [.l (some 5)] false =
      .ok [⟨440, 5, 1, 100, false, .none⟩] Option.none ∧
    parse_command_line [.l (some (300001 + 0))] false = .bail ∧
    main_run ⟨0, 0, 0, 0, false, false, false, false, [.l Option.none], false,
        true, false, [], fun _ => false⟩ = [Ev.usage, Ev.exitFailure]) := by
  have h := c10_numeric_option_bounds 5 0
    ⟨0, 0, 0, 0, false, false, false, false, [.l Option.none], false, true, false, [],
      fun _ => false⟩
    (by omega) rfl rfl rfl rfl rfl rfl rfl
  exact ⟨by omega, rfl, rfl,
    h.2.2.2.2.2.2.2.2.1, h.2.2.2.2.1, h.2.2.2.2.2.2.2.2.2.2.2.2.1⟩

/-!
## The per-sleep signal-handling discipline
-/

theorem scoped_of_all_sigFree : ∀ l : List Ev, (∀ x ∈ l, sigFree x = true) → Scoped l := by
  intro l
  induction l with
  | nil => intro _; exact Scoped.nil
  | cons e es ihe =>
    intro h
    exact Scoped.free e es (h e (List.mem_cons_self e es))
      (ihe fun x hx => h x (List.mem_cons_of_mem e hx))

theorem sleep_ms_scoped (intr : Nat → Bool) (t : SleepTag) (k ms : Nat) :
    scopedOk (sleep_ms intr t k ms) := by
  cases hk : intr k with
  | true =>
    have hs : sleep_ms intr t k ms = ⟨interruptedWindow t ms, k + 1, true⟩ := by
      rw [sleep_ms, hk]
      simp [interruptedWindow]
    rw [hs]
    exact ⟨fun hf => by simp at hf, fun _ => Scoped.teardownEnd t ms⟩
  | false =>
    have hs : sleep_ms intr t k ms =
        ⟨[.sigInstall, .sleep t ms, .sigRestore], k + 1, false⟩ := by
      rw [sleep_ms, hk]
      simp
    rw [hs]
    refine ⟨fun _ cont hc => ?_, fun ht => by simp at ht⟩
    simp only [List.cons_append, List.nil_append]
    exact Scoped.window t ms cont hc

theorem play_loop_scoped (p : beep_parms_T) (intr : Nat → Bool) :
    ∀ n i k, p.reps - i ≤ n → scopedOk (play_loop p intr i k) := by
  intro n
  induction n with
  | zero =>
    intro i k hn
    have hge : p.reps ≤ i := by omega
    rw [play_loop, dif_neg (Nat.not_lt.mpr hge)]
    exact ⟨fun _ cont hc => by simpa using hc, fun ht => by simp at ht⟩
  | succ n ih =>
    intro i k hn
    by_cases h : i < p.reps
    · rw [play_loop, dif_pos h]
      cases hk : intr k with
      | true =>
        have hs1 : sleep_ms intr .tone k p.length =
            ⟨interruptedWindow .tone p.length, k + 1, true⟩ := by
          rw [sleep_ms, hk]
          simp [interruptedWindow]
        rw [hs1]
        simp only [if_true]
        refine ⟨fun hf => by simp at hf, fun _ => ?_⟩
        exact Scoped.free _ _ rfl (Scoped.teardownEnd .tone p.length)
      | false =>
        have hs1 : sleep_ms intr .tone k p.length =
            ⟨[.sigInstall, .sleep .tone p.length, .sigRestore], k + 1, false⟩ := by
          rw [sleep_ms, hk]
          simp
        rw [hs1]
        simp only [Bool.false_eq_true, if_false]
        by_cases hd : p.end_delay = true ∨ i + 1 < p.reps
        · rw [if_pos hd]
          cases hk2 : intr (k + 1) with
          | true =>
            have hs2 : sleep_ms intr .delay (k + 1) p.delay =
                ⟨interruptedWindow .delay p.delay, k + 2, true⟩ := by
              rw [sleep_ms, hk2]
              simp [interruptedWindow]
            rw [hs2]
            simp only [if_true]
            refine ⟨fun hf => by simp at hf, fun _ => ?_⟩
            simp only [List.cons_append, List.append_assoc, List.nil_append]
            exact Scoped.free _ _ rfl (Scoped.window _ _ _
              (Scoped.free _ _ rfl (Scoped.teardownEnd .delay p.delay)))
          | false =>
            have hs2 : sleep_ms intr .delay (k + 1) p.delay =
                ⟨[.sigInstall, .sleep .delay p.delay, .sigRestore], k + 2, false⟩ := by
              rw [sleep_ms, hk2]
              simp
            rw [hs2]
            simp only [Bool.false_eq_true, if_false]
            obtain ⟨ihc, ihx⟩ := ih (i + 1) (k + 2) (by omega)
            constructor
            · intro hf cont hc
              simp only at hf
              simp only [List.cons_append, List.append_assoc, List.nil_append]
              exact Scoped.free _ _ rfl (Scoped.window _ _ _
                (Scoped.free _ _ rfl (Scoped.window _ _ _ (ihc hf cont hc))))
            · intro ht
              simp only at ht
              simp only [List.cons_append, List.append_assoc, List.nil_append]
              exact Scoped.free _ _ rfl (Scoped.window _ _ _
                (Scoped.free _ _ rfl (Scoped.window _ _ _ (ihx ht))))
        · rw [if_neg hd]
          obtain ⟨ihc, ihx⟩ := ih (i + 1) (k + 1) (by omega)
          constructor
          · intro hf cont hc
            simp only at hf
            simp only [List.cons_append, List.append_assoc, List.nil_append]
            exact Scoped.free _ _ rfl (Scoped.window _ _ _
              (Scoped.free _ _ rfl (ihc hf cont hc)))
          · intro ht
            simp only at ht
            simp only [List.cons_append, List.append_assoc, List.nil_append]
            exact Scoped.free _ _ rfl (Scoped.window _ _ _
              (Scoped.free _ _ rfl (ihx ht)))
    · rw [play_loop, dif_neg h]
      exact ⟨fun _ cont hc => by simpa using hc, fun ht => by simp at ht⟩

theorem play_beep_scoped (p : beep_parms_T) (intr : Nat → Bool) (k : Nat) :
    scopedOk (play_beep p intr k) := by
  obtain ⟨hc, hx⟩ := play_loop_scoped p intr p.reps 0 k (by omega)
  rw [play_beep]
  constructor
  · intro hf cont hcont
    simp only at hf
    simp only [List.cons_append]
    exact Scoped.free _ _ rfl (hc hf cont hcont)
  · intro ht
    simp only at ht
    exact Scoped.free _ _ rfl (hx ht)

theorem char_loop_scoped (p : beep_parms_T) (intr : Nat → Bool) :
    ∀ cs k, scopedOk (char_loop p intr cs k) := by
  intro cs
  induction cs with
  | nil =>
    intro k
    rw [char_loop]
    exact ⟨fun _ cont hc => by simpa using hc, fun ht => by simp at ht⟩
  | cons ch cs ihc =>
    intro k
    obtain ⟨pbc, pbx⟩ := play_beep_scoped p intr k
    cases hpe : (play_beep p intr k).exited with
    | true =>
      simp only [char_loop, hpe, if_true]
      refine ⟨fun hf => by simp at hf, fun _ => ?_⟩
      exact Scoped.free _ _ rfl (Scoped.free _ _ rfl (pbx hpe))
    | false =>
      simp only [char_loop, hpe, Bool.false_eq_true, if_false]
      obtain ⟨rc, rx⟩ := ihc (play_beep p intr k).k
      constructor
      · intro hf cont hc
        simp only at hf
        simp only [List.cons_append, List.append_assoc]
        exact Scoped.free _ _ rfl (Scoped.free _ _ rfl (pbc hpe _ (rc hf cont hc)))
      · intro ht
        simp only at ht
        exact Scoped.free _ _ rfl (Scoped.free _ _ rfl (pbc hpe _ (rx ht)))

theorem stdin_loop_scoped (p : beep_parms_T) (intr : Nat → Bool) :
    ∀ m input k, input.length ≤ m → scopedOk (stdin_loop p intr input k) := by
  intro m
  induction m with
  | zero =>
    intro input k hm
    have : input = [] := List.length_eq_zero.mp (Nat.le_zero.mp hm)
    subst this
    rw [stdin_loop]
    exact ⟨fun _ cont hc => by simpa using hc, fun ht => by simp at ht⟩
  | succ m ihm =>
    intro input k hm
    cases input with
    | nil =>
      rw [stdin_loop]
      exact ⟨fun _ cont hc => by simpa using hc, fun ht => by simp at ht⟩
    | cons c cs =>
      rw [stdin_loop]
      have hrest : (takeLine 4095 (c :: cs)).2.length ≤ m := by
        have hsplit := takeLine_append 4095 (c :: cs)
        have h1 : (takeLine 4095 (c :: cs)).1.length +
            (takeLine 4095 (c :: cs)).2.length = (c :: cs).length := by
          rw [← List.length_append, hsplit]
        have h2 : 0 < (takeLine 4095 (c :: cs)).1.length := by
          rw [takeLine]
          by_cases hnl : c = '\n'
          · simp [hnl]
          · simp [hnl]
        simp only [List.length_cons] at h1 hm
        omega
      have hr : scopedOk (if p.stdin_beep = .char then
          char_loop p intr (cstr (takeLine 4095 (c :: cs)).1) k
          else
            let pb := play_beep p intr k
            ⟨.echo (cstr (takeLine 4095 (c :: cs)).1) :: pb.trace, pb.k, pb.exited⟩) := by
        by_cases hsb : p.stdin_beep = .char
        · rw [if_pos hsb]
          exact char_loop_scoped p intr _ k
        · rw [if_neg hsb]
          obtain ⟨pbc, pbx⟩ := play_beep_scoped p intr k
          constructor
          · intro hf cont hc
            simp only at hf
            simp only [List.cons_append]
            exact Scoped.free _ _ rfl (pbc hf cont hc)
          · intro ht
            simp only at ht
            exact Scoped.free _ _ rfl (pbx ht)
      set r := (if p.stdin_beep = .char then
          char_loop p intr (cstr (takeLine 4095 (c :: cs)).1) k
          else
            let pb := play_beep p intr k
            (⟨.echo (cstr (takeLine 4095 (c :: cs)).1) :: pb.trace, pb.k, pb.exited⟩ :
              PRes)) with hrdef
      obtain ⟨rc, rx⟩ := hr
      cases hre : r.exited with
      | true =>
        simp only [hre, if_true]
        exact ⟨fun hf => by simp [hre] at hf ⊢, fun _ => rx hre⟩
      | false =>
        simp only [hre, Bool.false_eq_true, if_false]
        obtain ⟨r2c, r2x⟩ := ihm (takeLine 4095 (c :: cs)).2 r.k hrest
        constructor
        · intro hf cont hc
          simp only at hf
          simp only [List.append_assoc]
          exact rc hre _ (r2c hf cont hc)
        · intro ht
          simp only at ht
          exact rc hre _ (r2x ht)

theorem chain_loop_scoped (intr : Nat → Bool) :
    ∀ chain input k, scopedOk (chain_loop intr chain input k) := by
  intro chain
  induction chain with
  | nil =>
    intro input k
    rw [chain_loop]
    exact ⟨fun _ cont hc => by simpa using hc, fun ht => by simp at ht⟩
  | cons p rest ihc =>
    intro input k
    rw [chain_loop]
    have hr : scopedOk (if p.stdin_beep = .none then play_beep p intr k
        else
          let s := stdin_loop p intr input k
          ⟨.setvbufIn :: .setvbufOut :: s.trace, s.k, s.exited⟩) := by
      by_cases hsb : p.stdin_beep = .none
      · rw [if_pos hsb]
        exact play_beep_scoped p intr k
      · rw [if_neg hsb]
        obtain ⟨sc, sx⟩ := stdin_loop_scoped p intr input.length input k (le_refl _)
        constructor
        · intro hf cont hc
          simp only at hf
          simp only [List.cons_append]
          exact Scoped.free _ _ rfl (Scoped.free _ _ rfl (sc hf cont hc))
        · intro ht
          simp only at ht
          exact Scoped.free _ _ rfl (Scoped.free _ _ rfl (sx ht))
    set r := (if p.stdin_beep = .none then play_beep p intr k
        else
          let s := stdin_loop p intr input k
          (⟨.setvbufIn :: .setvbufOut :: s.trace, s.k, s.exited⟩ : PRes)) with hrdef
    obtain ⟨rc, rx⟩ := hr
    cases hre : r.exited with
    | true =>
      simp only [hre, if_true]
      exact ⟨fun hf => by simp [hre] at hf ⊢, fun _ => rx hre⟩
    | false =>
      simp only [hre, Bool.false_eq_true, if_false]
      obtain ⟨r2c, r2x⟩ := ihc (if p.stdin_beep = .none then input else []) r.k
      constructor
      · intro hf cont hc
        simp only at hf
        simp only [List.append_assoc, List.cons_append]
        refine rc hre _ (Scoped.free _ _ rfl ?_)
        have := r2c hf cont hc
        simpa using this
      · intro ht
        simp only at ht
        exact rc hre _ (Scoped.free _ _ rfl (r2x ht))

/-- **C5.** The no-op termination-signal handlers are installed
immediately before every `nanosleep` and restored immediately after it
returns normally: every trace of the whole program decomposes into
events run with the default disposition, complete
install/sleep/restore windows, and — only as the final events of an
interrupted run — one install/sleep window followed by the teardown
performed inside `sleep_ms` itself.  In particular device open, driver
register, tone start/stop outside the teardown, echoing and buffer
flushing never happen with the no-op handlers installed. -/
theorem c5_signal_discipline_scoped (env : Env) : Scoped (main_run env) := by
  rw [main_run]
  by_cases h1 : env.uid ≠ env.euid ∨ env.gid ≠ env.egid
  · rw [if_pos h1]
    exact scoped_of_all_sigFree _ (by decide)
  · rw [if_neg h1]
    by_cases h2 : (env.sudoCommand || env.sudoUser || env.sudoUid || env.sudoGid) = true
    · rw [if_pos h2]
      exact scoped_of_all_sigFree _ (by decide)
    · rw [if_neg h2]
      cases hpr : parse_command_line env.opts env.hasNonOptArgs with
      | bail =>
        show Scoped [Ev.usage, Ev.exitFailure]
        exact scoped_of_all_sigFree _ (by decide)
      | helpExit =>
        show Scoped [Ev.usage, Ev.exitSuccess]
        exact scoped_of_all_sigFree _ (by decide)
      | versionExit =>
        show Scoped [Ev.versionOut, Ev.exitSuccess]
        exact scoped_of_all_sigFree _ (by decide)
      | errDeviceDup =>
        show Scoped [Ev.errMsg "You cannot give the --device parameter more than once.",
          Ev.exitFailure]
        exact scoped_of_all_sigFree _ (by decide)
      | ok chain dev =>
        show Scoped (main_after_parse env chain dev)
        rw [main_after_parse.eq_def]
        have hplay : Scoped (mainPlay env chain) := by
          rw [mainPlay]
          obtain ⟨rc, rx⟩ := chain_loop_scoped env.intr chain env.stdinInput 0
          cases hre : (chain_loop env.intr chain env.stdinInput 0).exited with
          | true =>
            simp only [hre, if_true]
            simp only [List.append_nil]
            exact Scoped.free _ _ rfl (rx hre)
          | false =>
            simp only [hre, Bool.false_eq_true, if_false]
            refine Scoped.free _ _ rfl ?_
            exact rc hre _ (scoped_of_all_sigFree _ (by decide))
        cases dev with
        | some name =>
          cases hdet : env.detectOk with
          | true =>
            simp only [hdet, if_true]
            exact Scoped.free _ _ rfl (Scoped.free _ _ rfl hplay)
          | false =>
            simp only [hdet, Bool.false_eq_true, if_false]
            refine Scoped.free _ _ rfl (Scoped.free _ _ rfl ?_)
            refine scoped_of_all_sigFree _ ?_
            intro x hx
            simp at hx
            rcases hx with rfl | rfl <;> rfl
        | none =>
          cases hdet : env.detectOk with
          | true =>
            simp only [hdet, if_true]
            exact Scoped.free _ _ rfl (Scoped.free _ _ rfl hplay)
          | false =>
            simp only [hdet, Bool.false_eq_true, if_false]
            refine Scoped.free _ _ rfl (Scoped.free _ _ rfl ?_)
            cases htty : env.stdoutTTY <;> simp only [htty, if_true, Bool.false_eq_true,
              if_false] <;> exact scoped_of_all_sigFree _ (by decide)

end Beep
